import Mathlib

/-!
Verification of the directory-synchronization core and the HTTP handler logic of
the ComfyUI-disty-Flow plugin (`__init__.py`).

The filesystem is modelled as a tree of named entries: a `FSTree` is either a
file with opaque string content, or a directory holding a list of uniquely
named children (the data model of spec §3: each child is uniquely named within
its parent; a real filesystem guarantees this, so several theorems take a
`nodupE` well-formedness hypothesis).

The stateful Python code is embedded as explicit state-passing functions.  A
Python exception raised by a filesystem operation aborts the enclosing pass and
leaves whatever partial state had been written; accordingly the embedded
functions return the (possibly partial) state together with `Option Err`,
where `some e` marks the raised exception and recursion stops at that point,
exactly as exception propagation does in the source.
-/

/-- Filesystem entry: a file with opaque content, or a directory of named
children. -/
inductive FSTree where
  | file (content : String)
  | dir (children : List (String × FSTree))
deriving Repr

/-- Errors raised by the modelled filesystem calls: `notADirectory` is POSIX
ENOTDIR (writing or `mkdir`-ing below a path component that is a file),
`isADirectory` is EISDIR (opening a directory for writing, as `shutil.copyfile`
does when its target is a directory). -/
inductive Err where
  | notADirectory
  | isADirectory
deriving Repr, DecidableEq

/-- Names skipped by the merge: the denylist `['.git', '.github']` at lines
380 and 396 of `__init__.py`. -/
def excluded : List String := [".git", ".github"]

/-- Look a name up among a directory's children (first occurrence). -/
def lookupE : List (String × FSTree) → String → Option FSTree
  | [], _ => none
  | (n, t) :: rest, name => if n = name then some t else lookupE rest name

/-- Write an entry: replace the first child of that name, or append a new
child when the name is absent. -/
def setEntry : List (String × FSTree) → String → FSTree → List (String × FSTree)
  | [], name, t => [(name, t)]
  | (n, u) :: rest, name, t =>
    if n = name then (name, t) :: rest else (n, u) :: setEntry rest name t

/-- Delete the first child of the given name (models `shutil.rmtree` of a
directory entry). -/
def removeEntry : List (String × FSTree) → String → List (String × FSTree)
  | [], _ => []
  | (n, t) :: rest, name => if n = name then rest else (n, t) :: removeEntry rest name

/-- Model of `shutil.copy2(item, dest/name)` where `d` is the (directory)
parent of the target, translated from CPython's `shutil.copy2`: when the
target exists and is a directory, the file is copied INTO it under the
source's basename (`dst = os.path.join(dst, os.path.basename(src))`), so the
write lands at `dest/name/name`; opening that inner target for writing fails
with EISDIR when it is itself a directory.  Otherwise the file at `dest/name`
is created or overwritten.  Metadata copying (`copystat`) has no content
effect and is not modelled. -/
def copyFile2 (name content : String) (d : List (String × FSTree)) :
    List (String × FSTree) × Option Err :=
  match lookupE d name with
  | some (.dir d2) =>
    match lookupE d2 name with
    | some (.dir _) => (d, some .isADirectory)
    | _ => (setEntry d name (.dir (setEntry d2 name (.file content))), none)
  | _ => (setEntry d name (.file content), none)

/-- Model of `_copy_directory(src, dest)` (lines 394-404): iterate over the
source children `l`, skipping denylisted names; for a directory child, create
`dest/name` when absent (`dest_item.mkdir()`) and recurse; for a file child,
`shutil.copy2` it to `dest/name`.  When `dest` is in fact a file (reachable
through a directory-vs-file collision of an enclosing merge), `dest_item`
never exists, and both `mkdir` and the write inside `copy2` raise ENOTDIR.
An error aborts the iteration, keeping the partial state, as the propagating
Python exception does. -/
def copyDir : List (String × FSTree) → FSTree → FSTree × Option Err
  | [], dest => (dest, none)
  | (name, item) :: rest, dest =>
    if name ∈ excluded then copyDir rest dest
    else
      match item, dest with
      | _, .file c => (.file c, some .notADirectory)
      | .dir c, .dir d =>
        let destItem := (lookupE d name).getD (.dir [])
        let r := copyDir c destItem
        let d' := setEntry d name r.1
        match r.2 with
        | some e => (.dir d', some e)
        | none => copyDir rest (.dir d')
      | .file content, .dir d =>
        let r := copyFile2 name content d
        match r.2 with
        | some e => (.dir r.1, some e)
        | none => copyDir rest (.dir r.1)
termination_by l _ => sizeOf l

/-- Model of the merge loop of `download_or_update_flows` (lines 379-389):
iterate over the cloned repository's top-level entries `src`, skipping
denylisted names; an existing destination entry of the same name as a source
directory is merged via `_copy_directory`, an absent one receives a VERBATIM
`shutil.copytree` copy (no denylist filtering inside); a source file is
`shutil.copy2`-ed to `FLOWS_PATH/name`.  The destination root `dest` is the
directory `FLOWS_PATH`. -/
def syncEntries : List (String × FSTree) → List (String × FSTree) →
    List (String × FSTree) × Option Err
  | [], dest => (dest, none)
  | (name, item) :: rest, dest =>
    if name ∈ excluded then syncEntries rest dest
    else
      match item with
      | .dir c =>
        match lookupE dest name with
        | some destItem =>
          let r := copyDir c destItem
          let dest' := setEntry dest name r.1
          match r.2 with
          | some e => (dest', some e)
          | none => syncEntries rest dest'
        | none => syncEntries rest (setEntry dest name (.dir c))
      | .file content =>
        let r := copyFile2 name content dest
        match r.2 with
        | some e => (r.1, some e)
        | none => syncEntries rest r.1

/-- Follow a relative path (list of component names) down a tree. -/
def getPath : FSTree → List String → Option FSTree
  | t, [] => some t
  | .dir d, n :: p =>
    match lookupE d n with
    | some t => getPath t p
    | none => none
  | .file _, _ :: _ => none

/-- Well-formedness of a child list as produced by a real filesystem: names
are unique within each directory, recursively (spec §3: each child uniquely
named within its parent). -/
def nodupE : List (String × FSTree) → Bool
  | [] => true
  | (n, t) :: rest =>
    (lookupE rest n).isNone &&
    (match t with
     | .file _ => true
     | .dir d => nodupE d) &&
    nodupE rest
termination_by l => sizeOf l

/-- A tree containing no denylisted name at any depth. -/
def exFreeE : List (String × FSTree) → Bool
  | [] => true
  | (n, t) :: rest =>
    (if n ∈ excluded then false
     else match t with
       | .file _ => true
       | .dir d => exFreeE d) &&
    exFreeE rest
termination_by l => sizeOf l

/-- Tree-level variant of `exFreeE`. -/
def exFreeT : FSTree → Bool
  | .file _ => true
  | .dir d => exFreeE d

/-- A directory-vs-file collision between the two trees at some corresponding
position reachable by the merge: a name that is a directory on one side and a
file on the other. -/
def collidesE : List (String × FSTree) → List (String × FSTree) → Bool
  | [], _ => false
  | (n, t) :: rest, d =>
    (match t, lookupE d n with
     | .dir _, some (.file _) => true
     | .file _, some (.dir _) => true
     | .dir c, some (.dir d2) => collidesE c d2
     | _, _ => false) ||
    collidesE rest d
termination_by l _ => sizeOf l

/-- Absence of the specific collision shape that makes the merge write inside
a destination directory: no name that is a file in the source and a directory
in the destination, at any corresponding position the merge traverses. -/
def noFileDirColl : List (String × FSTree) → List (String × FSTree) → Bool
  | [], _ => true
  | (n, t) :: rest, d =>
    (match t, lookupE d n with
     | .file _, some (.dir _) => false
     | .dir c, some (.dir d2) => noFileDirColl c d2
     | _, _ => true) &&
    noFileDirColl rest d
termination_by l _ => sizeOf l

/-- Node-level variant of `noFileDirColl` (trivial when the destination node
is a file, where the merge never writes). -/
def noFDT (l : List (String × FSTree)) : FSTree → Bool
  | .dir d => noFileDirColl l d
  | .file _ => true


/-- Tree-level variant of `nodupE`. -/
def nodupT : FSTree → Bool
  | .file _ => true
  | .dir d => nodupE d

/-- State visible to `download_or_update_flows`: the `FLOWS_PATH` directory
(`none` while it does not exist yet) and the identities of the live temporary
directories created by the transient-storage provider. -/
structure SyncState where
  flows : Option (List (String × FSTree))
  temps : List Nat
deriving Repr

/-- Body of the `with tempfile.TemporaryDirectory()` block of
`download_or_update_flows` (lines 367-390): run `git clone` (its exit status
`cloneCode` and the cloned tree `cloned` are parameters standing for the
external fetch mechanism); on a non-zero status log and return without
touching `FLOWS_PATH`; otherwise create `FLOWS_PATH` when absent and run the
merge loop.  Returns the new `FLOWS_PATH` state, whether the merge loop ran,
and the merge error (a raised exception) if any. -/
def syncBody (cloneCode : Int) (cloned : List (String × FSTree))
    (flows0 : Option (List (String × FSTree))) :
    Option (List (String × FSTree)) × Bool × Option Err :=
  if cloneCode ≠ 0 then (flows0, false, none)
  else
    let d0 := flows0.getD []
    let r := syncEntries cloned d0
    (some r.1, true, r.2)

/-- Model of `download_or_update_flows` (lines 364-392).  The
`tempfile.TemporaryDirectory` context manager acquires a fresh temporary
directory `tid` for the duration of the body and reclaims it on every exit
path, normal or exceptional; the surrounding `try/except` then swallows any
raised exception, so the function always returns normally.  Result: the new
state and whether the merge step was reached. -/
def download_or_update_flows (cloneCode : Int) (cloned : List (String × FSTree))
    (s : SyncState) (tid : Nat) : SyncState × Bool :=
  let b := syncBody cloneCode cloned s.flows
  (⟨b.1, ((tid :: s.temps).erase tid)⟩, b.2.1)

/-- Outcome of `install_package_handler` as seen by the client. -/
inductive InstallResult where
  | missingUrl
  | alreadyInstalled
  | success
  | errorRequirements
  | errorClone
deriving Repr, DecidableEq

/-- Segment of a character list after the last occurrence of `sep`, the whole
list when `sep` is absent: the semantics of Python `s.split(sep)[-1]`. -/
def lastSegment (sep : Char) (l : List Char) : List Char :=
  l.foldl (fun acc ch => if ch = sep then [] else acc ++ [ch]) []

/-- Model of `package_url.rstrip('/').split('/')[-1]` (line 135): strip the
trailing slashes, then take the segment after the last remaining slash. -/
def packageNameOf (url : String) : String :=
  String.mk (lastSegment '/' ((url.toList.reverse.dropWhile (fun c => c = '/')).reverse))

/-- Model of `install_package_handler` (lines 129-169) acting on the
`CUSTOM_NODES_DIR` child list `nodes`.  External subprocesses are parameters:
`cloneOk` is whether `git clone` exits 0, in which case it populates
`install_path` with `clonedTree`; on failure it may leave a partial directory
`cloneLeftover` (or nothing); `pipOk` is whether the `pip install -r` call
exits 0.  The handler checks `requirements.txt` inside the clone, removes the
installed tree with `shutil.rmtree` on a pip failure, and on a clone failure
removes `install_path` when it exists. -/
def install_package_handler (packageUrl : Option String) (cloneOk : Bool)
    (clonedTree : List (String × FSTree))
    (cloneLeftover : Option (List (String × FSTree))) (pipOk : Bool)
    (nodes : List (String × FSTree)) : List (String × FSTree) × InstallResult :=
  match packageUrl with
  | none => (nodes, .missingUrl)
  | some url =>
    let pname := packageNameOf url
    if (lookupE nodes pname).isSome then (nodes, .alreadyInstalled)
    else if cloneOk then
      let nodes1 := setEntry nodes pname (.dir clonedTree)
      if (lookupE clonedTree "requirements.txt").isSome then
        if pipOk then (nodes1, .success)
        else (removeEntry nodes1 pname, .errorRequirements)
      else (nodes1, .success)
    else
      let nodes1 :=
        match cloneLeftover with
        | some t => setEntry nodes pname (.dir t)
        | none => nodes
      let nodes2 :=
        if (lookupE nodes1 pname).isSome then removeEntry nodes1 pname else nodes1
      (nodes2, .errorClone)

/-- Serialization standing for `json.dump(data, f, indent=2)`: the exact text
format is irrelevant to the claims, only that the whole request body is
written. -/
def encodeJson : List (String × String) → String
  | [] => ""
  | (k, v) :: rest => k ++ ":" ++ v ++ ";" ++ encodeJson rest

/-- Model of `save_config_handler` (lines 235-253) acting on the `FLOWS_PATH`
child list.  The request body `data` is modelled as a JSON object (association
list).  The handler hardcodes `flow_id = "afl_aaafllinker"` (line 238); the
`if not flow_id` guard (line 239) tests Python falsiness, i.e. emptiness, of
that literal; a missing flow directory yields 404; writing below a FILE named
`afl_aaafllinker` raises ENOTDIR, caught by the handler as a 500; otherwise
`flowConfig.json` inside the flow directory is overwritten with the dumped
body.  Returns the new state and the HTTP status. -/
def save_config_handler (data : List (String × String))
    (flows : List (String × FSTree)) : List (String × FSTree) × Nat :=
  let flow_id := "afl_aaafllinker"
  if flow_id = "" then (flows, 400)
  else
    match lookupE flows flow_id with
    | none => (flows, 404)
    | some (.dir d) =>
      (setEntry flows flow_id
        (.dir (setEntry d "flowConfig.json" (.file (encodeJson data)))), 200)
    | some (.file _) => (flows, 500)

/-- The css allowlist `ALLOWED_EXTENSIONS = ` (line 43): a set holding the
single element css. -/
def ALLOWED_EXTENSIONS : List String := ["css"]

/-- Characters after the last dot of a filename, `none` when it has no dot:
the semantics of the Python test `'.' in filename` combined with
`filename.rsplit('.', 1)[1]`. -/
def afterLastDot : List Char → Option (List Char)
  | [] => none
  | ch :: rest =>
    match afterLastDot rest with
    | some s => some s
    | none => if ch = '.' then some rest else none

/-- Model of `allowed_file` (lines 327-328):
`'.' in filename and filename.rsplit('.', 1)[1].lower() in ALLOWED_EXTENSIONS`.
A filename with no dot is rejected; otherwise the lower-cased segment after
the last dot must lie in the allowlist. -/
def allowed_file (filename : String) : Bool :=
  match afterLastDot filename.toList with
  | none => false
  | some ext => ALLOWED_EXTENSIONS.contains (String.mk (ext.map Char.toLower))

/-- Response of the theme-file handler: a 404, or the served file content. -/
inductive ThemeResp where
  | notFound
  | fileContent (c : String)
deriving Repr, DecidableEq

/-- Model of `get_theme_css_handler` (lines 344-362): reject the request with
404 when `allowed_file` fails; 404 when the path does not exist or is not a
regular file; otherwise serve the file content. -/
def get_theme_css_handler (filename : String)
    (themesDir : List (String × FSTree)) : ThemeResp :=
  if !allowed_file filename then .notFound
  else
    match lookupE themesDir filename with
    | some (.file c) => .fileContent c
    | some (.dir _) => .notFound
    | none => .notFound

/-- `item.is_file()` on an entry. -/
def isFileT : FSTree → Bool
  | .file _ => true
  | .dir _ => false

/-- Model of `list_themes_handler` (lines 330-342): an empty listing when the
themes directory is missing, else the names of the regular files accepted by
`allowed_file`. -/
def list_themes_handler (themesDir : Option (List (String × FSTree))) :
    List String :=
  match themesDir with
  | none => []
  | some d => (d.filter (fun nt => isFileT nt.2 && allowed_file nt.1)).map Prod.fst

/-! ## Basic lemmas about the child-list operations -/

theorem lookupE_set_self (l : List (String × FSTree)) (n : String) (t : FSTree) :
    lookupE (setEntry l n t) n = some t := by
  induction l with
  | nil => simp [setEntry, lookupE]
  | cons hd tl ih =>
    obtain ⟨m, u⟩ := hd
    by_cases h : m = n <;> simp [setEntry, lookupE, h, ih]

theorem lookupE_set_ne (l : List (String × FSTree)) (n m : String) (t : FSTree)
    (h : m ≠ n) : lookupE (setEntry l n t) m = lookupE l m := by
  induction l with
  | nil => simp [setEntry, lookupE, Ne.symm h]
  | cons hd tl ih =>
    obtain ⟨k, u⟩ := hd
    by_cases hk : k = n
    · subst hk
      simp [setEntry, lookupE, Ne.symm h]
    · simp [setEntry, lookupE, hk]
      by_cases hm : k = m <;> simp [hm, ih]

theorem setEntry_noop (l : List (String × FSTree)) (n : String) (t : FSTree)
    (h : lookupE l n = some t) : setEntry l n t = l := by
  induction l with
  | nil => simp [lookupE] at h
  | cons hd tl ih =>
    obtain ⟨k, u⟩ := hd
    by_cases hk : k = n
    · subst hk
      simp [lookupE] at h
      simp [setEntry, h]
    · simp [lookupE, hk] at h
      simp [setEntry, hk, ih h]

theorem setEntry_setEntry (l : List (String × FSTree)) (n : String) (t t' : FSTree) :
    setEntry (setEntry l n t) n t' = setEntry l n t' := by
  induction l with
  | nil => simp [setEntry]
  | cons hd tl ih =>
    obtain ⟨k, u⟩ := hd
    by_cases hk : k = n <;> simp [setEntry, hk, ih]

theorem setEntry_absent (l : List (String × FSTree)) (n : String) (t : FSTree)
    (h : lookupE l n = none) : setEntry l n t = l ++ [(n, t)] := by
  induction l with
  | nil => simp [setEntry]
  | cons hd tl ih =>
    obtain ⟨k, u⟩ := hd
    by_cases hk : k = n
    · simp [lookupE, hk] at h
    · simp [lookupE, hk] at h
      simp [setEntry, hk, ih h]

theorem removeEntry_append (l : List (String × FSTree)) (n : String) (t : FSTree)
    (h : lookupE l n = none) : removeEntry (l ++ [(n, t)]) n = l := by
  induction l with
  | nil => simp [removeEntry]
  | cons hd tl ih =>
    obtain ⟨k, u⟩ := hd
    by_cases hk : k = n
    · simp [lookupE, hk] at h
    · simp [lookupE, hk] at h
      simp [removeEntry, hk, ih h]

theorem nodupE_cons (n : String) (t : FSTree) (rest : List (String × FSTree))
    (h : nodupE ((n, t) :: rest) = true) :
    lookupE rest n = none ∧
      (∀ d, t = .dir d → nodupE d = true) ∧ nodupE rest = true := by
  rw [nodupE.eq_def] at h
  simp only [Bool.and_eq_true, Option.isNone_iff_eq_none] at h
  refine ⟨h.1.1, ?_, h.2⟩
  intro d hd
  subst hd
  simpa using h.1.2

theorem nodupE_lookup_mem (l : List (String × FSTree)) (n : String) (t : FSTree)
    (hnd : nodupE l = true) (hm : (n, t) ∈ l) : lookupE l n = some t := by
  induction l with
  | nil => simp at hm
  | cons hd tl ih =>
    obtain ⟨k, u⟩ := hd
    obtain ⟨habs, _, htl⟩ := nodupE_cons k u tl hnd
    rcases List.mem_cons.mp hm with h | h
    · obtain ⟨h1, h2⟩ := Prod.mk.injEq .. ▸ h
      simp_all [lookupE]
    · have := ih htl h
      by_cases hk : k = n
      · subst hk
        rw [this] at habs
        cases habs
      · simp [lookupE, hk, this]

theorem nodupE_mem_dir (l : List (String × FSTree)) (n : String)
    (d : List (String × FSTree)) (hnd : nodupE l = true)
    (hm : (n, .dir d) ∈ l) : nodupE d = true := by
  induction l with
  | nil => simp at hm
  | cons hd tl ih =>
    obtain ⟨k, u⟩ := hd
    obtain ⟨_, hdir, htl⟩ := nodupE_cons k u tl hnd
    rcases List.mem_cons.mp hm with h | h
    · obtain ⟨h1, h2⟩ := Prod.mk.injEq .. ▸ h
      exact hdir d h2.symm
    · exact ih htl h

/-! ## Step equations and structural lemmas for the merge functions -/

theorem copyDir_nil (dest : FSTree) : copyDir [] dest = (dest, none) := by
  simp [copyDir]

theorem copyDir_cons_excl (name : String) (item : FSTree)
    (rest : List (String × FSTree)) (h : name ∈ excluded) (dest : FSTree) :
    copyDir ((name, item) :: rest) dest = copyDir rest dest := by
  rw [copyDir.eq_def]
  simp [h]

theorem copyDir_cons_destFile (name : String) (item : FSTree)
    (rest : List (String × FSTree)) (h : name ∉ excluded) (c : String) :
    copyDir ((name, item) :: rest) (.file c) = (.file c, some .notADirectory) := by
  rw [copyDir.eq_def]
  simp [h]

theorem copyDir_cons_dir (name : String) (c rest : List (String × FSTree))
    (h : name ∉ excluded) (d : List (String × FSTree)) :
    copyDir ((name, .dir c) :: rest) (.dir d) =
      (match (copyDir c ((lookupE d name).getD (.dir []))).2 with
       | some e =>
         (.dir (setEntry d name (copyDir c ((lookupE d name).getD (.dir []))).1), some e)
       | none =>
         copyDir rest
           (.dir (setEntry d name (copyDir c ((lookupE d name).getD (.dir []))).1))) := by
  rw [copyDir.eq_def]
  simp [h]

theorem copyDir_cons_file (name content : String)
    (rest : List (String × FSTree)) (h : name ∉ excluded)
    (d : List (String × FSTree)) :
    copyDir ((name, .file content) :: rest) (.dir d) =
      (match (copyFile2 name content d).2 with
       | some e => (.dir (copyFile2 name content d).1, some e)
       | none => copyDir rest (.dir (copyFile2 name content d).1)) := by
  rw [copyDir.eq_def]
  simp [h]

theorem copyDir_file_state (l : List (String × FSTree)) (c : String) :
    (copyDir l (FSTree.file c)).1 = FSTree.file c := by
  induction l with
  | nil => simp [copyDir_nil]
  | cons hd tl ih =>
    obtain ⟨n, t⟩ := hd
    by_cases h : n ∈ excluded
    · rw [copyDir_cons_excl n t tl h _]
      exact ih
    · rw [copyDir_cons_destFile n t tl h c]

theorem copyDir_dir_shape (l : List (String × FSTree)) :
    ∀ d : List (String × FSTree), ∃ d' e, copyDir l (.dir d) = (.dir d', e) := by
  induction l with
  | nil => exact fun d => ⟨d, none, copyDir_nil _⟩
  | cons hd tl ih =>
    obtain ⟨n, t⟩ := hd
    intro d
    by_cases h : n ∈ excluded
    · obtain ⟨d', e, he⟩ := ih d
      exact ⟨d', e, by rw [copyDir_cons_excl n t tl h _]; exact he⟩
    · cases t with
      | dir c =>
        rw [copyDir_cons_dir n c tl h d]
        cases hr : (copyDir c ((lookupE d n).getD (.dir []))).2 with
        | some e => exact ⟨_, _, rfl⟩
        | none =>
          obtain ⟨d', e, he⟩ :=
            ih (setEntry d n (copyDir c ((lookupE d n).getD (.dir []))).1)
          exact ⟨d', e, he⟩
      | file content =>
        rw [copyDir_cons_file n content tl h d]
        cases hr : (copyFile2 n content d).2 with
        | some e => exact ⟨_, _, rfl⟩
        | none =>
          obtain ⟨d', e, he⟩ := ih (copyFile2 n content d).1
          exact ⟨d', e, he⟩

theorem copyFile2_lookup_ne (name content : String) (d : List (String × FSTree))
    (m : String) (h : m ≠ name) :
    lookupE (copyFile2 name content d).1 m = lookupE d m := by
  unfold copyFile2
  cases hd : lookupE d name with
  | none => simp [lookupE_set_ne _ _ _ _ h]
  | some w =>
    cases w with
    | file c => simp [lookupE_set_ne _ _ _ _ h]
    | dir d2 =>
      cases hd2 : lookupE d2 name with
      | none => simp [hd2, lookupE_set_ne _ _ _ _ h]
      | some w2 =>
        cases w2 <;> simp [hd2, lookupE_set_ne _ _ _ _ h]

theorem copyDir_lookup_ne (l : List (String × FSTree)) (m : String)
    (hm : lookupE l m = none) :
    ∀ (d d' : List (String × FSTree)) (e : Option Err),
      copyDir l (.dir d) = (.dir d', e) → lookupE d' m = lookupE d m := by
  induction l with
  | nil =>
    intro d d' e he
    rw [copyDir_nil] at he
    obtain ⟨h1, _⟩ := Prod.mk.injEq .. ▸ he
    cases h1
    rfl
  | cons hd tl ih =>
    obtain ⟨n, t⟩ := hd
    have hnm : n ≠ m := by
      intro hh
      subst hh
      simp [lookupE] at hm
    have htl : lookupE tl m = none := by
      simpa [lookupE, hnm] using hm
    intro d d' e he
    by_cases h : n ∈ excluded
    · rw [copyDir_cons_excl n t tl h _] at he
      exact ih htl d d' e he
    · cases t with
      | dir c =>
        rw [copyDir_cons_dir n c tl h d] at he
        cases hr : (copyDir c ((lookupE d n).getD (.dir []))).2 with
        | some e0 =>
          rw [hr] at he
          obtain ⟨h1, _⟩ := Prod.mk.injEq .. ▸ he
          have h1' : d' = setEntry d n (copyDir c ((lookupE d n).getD (.dir []))).1 :=
            (FSTree.dir.injEq .. ▸ h1.symm)
          rw [h1', lookupE_set_ne _ _ _ _ (Ne.symm hnm)]
        | none =>
          rw [hr] at he
          have := ih htl _ d' e he
          rw [this, lookupE_set_ne _ _ _ _ (Ne.symm hnm)]
      | file content =>
        rw [copyDir_cons_file n content tl h d] at he
        cases hr : (copyFile2 n content d).2 with
        | some e0 =>
          rw [hr] at he
          obtain ⟨h1, _⟩ := Prod.mk.injEq .. ▸ he
          have h1' : d' = (copyFile2 n content d).1 := (FSTree.dir.injEq .. ▸ h1.symm)
          rw [h1', copyFile2_lookup_ne _ _ _ _ (Ne.symm hnm)]
        | none =>
          rw [hr] at he
          have := ih htl _ d' e he
          rw [this, copyFile2_lookup_ne _ _ _ _ (Ne.symm hnm)]

theorem copyFile2_err_state (name content : String) (d : List (String × FSTree))
    (e : Err) (h : (copyFile2 name content d).2 = some e) :
    (copyFile2 name content d).1 = d := by
  unfold copyFile2 at h ⊢
  cases hd : lookupE d name with
  | none => simp [hd] at h
  | some w =>
    cases w with
    | file c => simp [hd] at h
    | dir d2 =>
      cases hd2 : lookupE d2 name with
      | none => simp [hd, hd2] at h
      | some w2 =>
        cases w2 with
        | file c2 => simp [hd, hd2] at h
        | dir dd => simp [hd, hd2]

theorem copyFile2_idem (name content : String) (d f : List (String × FSTree))
    (h2 : (copyFile2 name content d).2 = none)
    (hf : lookupE f name = lookupE (copyFile2 name content d).1 name) :
    copyFile2 name content f = (f, none) := by
  unfold copyFile2 at h2 hf ⊢
  cases hd : lookupE d name with
  | none =>
    simp [hd, lookupE_set_self] at hf
    simp [hf, setEntry_noop f name _ hf]
  | some w =>
    cases w with
    | file c =>
      simp [hd, lookupE_set_self] at hf
      simp [hf, setEntry_noop f name _ hf]
    | dir d2 =>
      cases hd2 : lookupE d2 name with
      | none =>
        simp [hd, hd2, lookupE_set_self] at hf
        simp [hf, lookupE_set_self,
          setEntry_noop _ _ _ (lookupE_set_self d2 name (.file content)),
          setEntry_noop f name _ hf]
      | some w2 =>
        cases w2 with
        | file c2 =>
          simp [hd, hd2, lookupE_set_self] at hf
          simp [hf, lookupE_set_self,
            setEntry_noop _ _ _ (lookupE_set_self d2 name (.file content)),
            setEntry_noop f name _ hf]
        | dir dd => simp [hd, hd2] at h2

theorem nodupE_mem_nodupT (l : List (String × FSTree)) (n : String) (t : FSTree)
    (hnd : nodupE l = true) (hm : (n, t) ∈ l) : nodupT t = true := by
  cases t with
  | file c => rfl
  | dir d => exact nodupE_mem_dir l n d hnd hm

theorem syncEntries_nil (dest : List (String × FSTree)) :
    syncEntries [] dest = (dest, none) := rfl

theorem syncEntries_cons_excl (name : String) (item : FSTree)
    (rest : List (String × FSTree)) (h : name ∈ excluded)
    (dest : List (String × FSTree)) :
    syncEntries ((name, item) :: rest) dest = syncEntries rest dest := by
  rw [syncEntries.eq_def]
  simp [h]

theorem syncEntries_cons_dir_merge (name : String)
    (c rest dest : List (String × FSTree)) (destItem : FSTree)
    (h : name ∉ excluded) (hl : lookupE dest name = some destItem) :
    syncEntries ((name, .dir c) :: rest) dest =
      (match (copyDir c destItem).2 with
       | some e => (setEntry dest name (copyDir c destItem).1, some e)
       | none => syncEntries rest (setEntry dest name (copyDir c destItem).1)) := by
  rw [syncEntries.eq_def]
  simp [h, hl]

theorem syncEntries_cons_dir_new (name : String)
    (c rest dest : List (String × FSTree))
    (h : name ∉ excluded) (hl : lookupE dest name = none) :
    syncEntries ((name, .dir c) :: rest) dest =
      syncEntries rest (setEntry dest name (.dir c)) := by
  rw [syncEntries.eq_def]
  simp [h, hl]

theorem syncEntries_cons_file (name content : String)
    (rest : List (String × FSTree)) (h : name ∉ excluded)
    (dest : List (String × FSTree)) :
    syncEntries ((name, .file content) :: rest) dest =
      (match (copyFile2 name content dest).2 with
       | some e => ((copyFile2 name content dest).1, some e)
       | none => syncEntries rest (copyFile2 name content dest).1) := by
  rw [syncEntries.eq_def]
  simp [h]

theorem syncEntries_lookup_ne (l : List (String × FSTree)) (m : String)
    (hm : lookupE l m = none) :
    ∀ dest : List (String × FSTree),
      lookupE (syncEntries l dest).1 m = lookupE dest m := by
  induction l with
  | nil => intro dest; rw [syncEntries_nil]
  | cons hd tl ih =>
    obtain ⟨n, t⟩ := hd
    have hnm : n ≠ m := by
      intro hh
      subst hh
      simp [lookupE] at hm
    have htl : lookupE tl m = none := by
      simpa [lookupE, hnm] using hm
    intro dest
    by_cases h : n ∈ excluded
    · rw [syncEntries_cons_excl n t tl h dest]
      exact ih htl dest
    · cases t with
      | dir c =>
        cases hl : lookupE dest n with
        | some destItem =>
          rw [syncEntries_cons_dir_merge n c tl dest destItem h hl]
          cases hr : (copyDir c destItem).2 with
          | some e =>
            simp only []
            rw [lookupE_set_ne _ _ _ _ (Ne.symm hnm)]
          | none =>
            rw [ih htl _, lookupE_set_ne _ _ _ _ (Ne.symm hnm)]
        | none =>
          rw [syncEntries_cons_dir_new n c tl dest h hl, ih htl _,
            lookupE_set_ne _ _ _ _ (Ne.symm hnm)]
      | file content =>
        rw [syncEntries_cons_file n content tl h dest]
        cases hr : (copyFile2 n content dest).2 with
        | some e =>
          simp only []
          rw [copyFile2_lookup_ne _ _ _ _ (Ne.symm hnm)]
        | none =>
          rw [ih htl _, copyFile2_lookup_ne _ _ _ _ (Ne.symm hnm)]

theorem copyDir_cons_dir_err (name : String) (c rest : List (String × FSTree))
    (h : name ∉ excluded) (d : List (String × FSTree)) (e : Err)
    (hre : (copyDir c ((lookupE d name).getD (.dir []))).2 = some e) :
    copyDir ((name, .dir c) :: rest) (.dir d) =
      (.dir (setEntry d name (copyDir c ((lookupE d name).getD (.dir []))).1),
        some e) := by
  rw [copyDir_cons_dir name c rest h d, hre]

theorem copyDir_cons_dir_ok (name : String) (c rest : List (String × FSTree))
    (h : name ∉ excluded) (d : List (String × FSTree))
    (hre : (copyDir c ((lookupE d name).getD (.dir []))).2 = none) :
    copyDir ((name, .dir c) :: rest) (.dir d) =
      copyDir rest
        (.dir (setEntry d name (copyDir c ((lookupE d name).getD (.dir []))).1)) := by
  rw [copyDir_cons_dir name c rest h d, hre]

theorem copyDir_cons_file_err (name content : String)
    (rest : List (String × FSTree)) (h : name ∉ excluded)
    (d : List (String × FSTree)) (e : Err)
    (hre : (copyFile2 name content d).2 = some e) :
    copyDir ((name, .file content) :: rest) (.dir d) =
      (.dir (copyFile2 name content d).1, some e) := by
  rw [copyDir_cons_file name content rest h d, hre]

theorem copyDir_cons_file_ok (name content : String)
    (rest : List (String × FSTree)) (h : name ∉ excluded)
    (d : List (String × FSTree))
    (hre : (copyFile2 name content d).2 = none) :
    copyDir ((name, .file content) :: rest) (.dir d) =
      copyDir rest (.dir (copyFile2 name content d).1) := by
  rw [copyDir_cons_file name content rest h d, hre]

theorem syncEntries_cons_dir_merge_err (name : String)
    (c rest dest : List (String × FSTree)) (destItem : FSTree) (e : Err)
    (h : name ∉ excluded) (hl : lookupE dest name = some destItem)
    (hre : (copyDir c destItem).2 = some e) :
    syncEntries ((name, .dir c) :: rest) dest =
      (setEntry dest name (copyDir c destItem).1, some e) := by
  rw [syncEntries_cons_dir_merge name c rest dest destItem h hl, hre]

theorem syncEntries_cons_dir_merge_ok (name : String)
    (c rest dest : List (String × FSTree)) (destItem : FSTree)
    (h : name ∉ excluded) (hl : lookupE dest name = some destItem)
    (hre : (copyDir c destItem).2 = none) :
    syncEntries ((name, .dir c) :: rest) dest =
      syncEntries rest (setEntry dest name (copyDir c destItem).1) := by
  rw [syncEntries_cons_dir_merge name c rest dest destItem h hl, hre]

theorem syncEntries_cons_file_err (name content : String)
    (rest dest : List (String × FSTree)) (e : Err) (h : name ∉ excluded)
    (hre : (copyFile2 name content dest).2 = some e) :
    syncEntries ((name, .file content) :: rest) dest =
      ((copyFile2 name content dest).1, some e) := by
  rw [syncEntries_cons_file name content rest h dest, hre]

theorem syncEntries_cons_file_ok (name content : String)
    (rest dest : List (String × FSTree)) (h : name ∉ excluded)
    (hre : (copyFile2 name content dest).2 = none) :
    syncEntries ((name, .file content) :: rest) dest =
      syncEntries rest (copyFile2 name content dest).1 := by
  rw [syncEntries_cons_file name content rest h dest, hre]

theorem copyDir_idem_aux :
    ∀ (N : Nat) (l : List (String × FSTree)) (dest : FSTree), sizeOf l ≤ N →
      nodupE l = true → copyDir l (copyDir l dest).1 = copyDir l dest := by
  intro N
  induction N with
  | zero =>
    intro l dest hle
    exfalso
    cases l <;> simp_arith at hle
  | succ N ihN =>
    intro l dest hle hnd
    cases l with
    | nil => rw [copyDir_nil, copyDir_nil]
    | cons hd rest =>
      obtain ⟨name, item⟩ := hd
      obtain ⟨habs, hdirt, hrest⟩ := nodupE_cons name item rest hnd
      have hlerest : sizeOf rest ≤ N := by
        have h2 := hle
        simp_arith at h2
        omega
      by_cases hmem : name ∈ excluded
      · simp only [copyDir_cons_excl name item rest hmem]
        exact ihN rest dest hlerest hrest
      · cases dest with
        | file cc => rw [copyDir_file_state ((name, item) :: rest) cc]
        | dir d =>
          cases item with
          | file content =>
            cases hre : (copyFile2 name content d).2 with
            | some e =>
              rw [copyDir_cons_file_err name content rest hmem d e hre,
                copyFile2_err_state name content d e hre,
                copyDir_cons_file_err name content rest hmem d e hre,
                copyFile2_err_state name content d e hre]
            | none =>
              rw [copyDir_cons_file_ok name content rest hmem d hre]
              obtain ⟨f, eF, hR⟩ := copyDir_dir_shape rest (copyFile2 name content d).1
              rw [hR]
              have hlookf : lookupE f name = lookupE (copyFile2 name content d).1 name :=
                copyDir_lookup_ne rest name habs _ f eF hR
              have hidem := copyFile2_idem name content d f hre hlookf
              have hre2 : (copyFile2 name content f).2 = none := by rw [hidem]
              rw [copyDir_cons_file_ok name content rest hmem f hre2, hidem]
              have hrun := ihN rest (.dir (copyFile2 name content d).1) hlerest hrest
              rw [hR] at hrun
              exact hrun
          | dir c =>
            have hc : nodupE c = true := hdirt c rfl
            have hlec : sizeOf c ≤ N := by
              have h2 := hle
              simp_arith at h2
              omega
            have hcidem := ihN c ((lookupE d name).getD (.dir [])) hlec hc
            cases hre : (copyDir c ((lookupE d name).getD (.dir []))).2 with
            | some e =>
              rw [copyDir_cons_dir_err name c rest hmem d e hre]
              have hlook1 :
                  lookupE (setEntry d name
                    (copyDir c ((lookupE d name).getD (.dir []))).1) name =
                  some (copyDir c ((lookupE d name).getD (.dir []))).1 :=
                lookupE_set_self d name _
              have hre2 : (copyDir c ((lookupE (setEntry d name
                  (copyDir c ((lookupE d name).getD (.dir []))).1) name).getD
                    (.dir []))).2 = some e := by
                rw [hlook1, Option.getD_some, hcidem, hre]
              rw [copyDir_cons_dir_err name c rest hmem _ e hre2]
              rw [hlook1, Option.getD_some, hcidem, setEntry_setEntry]
            | none =>
              rw [copyDir_cons_dir_ok name c rest hmem d hre]
              obtain ⟨f, eF, hR⟩ := copyDir_dir_shape rest
                (setEntry d name (copyDir c ((lookupE d name).getD (.dir []))).1)
              rw [hR]
              have hlookf : lookupE f name =
                  some (copyDir c ((lookupE d name).getD (.dir []))).1 := by
                rw [copyDir_lookup_ne rest name habs _ f eF hR, lookupE_set_self]
              have hre2 : (copyDir c ((lookupE f name).getD (.dir []))).2 = none := by
                rw [hlookf, Option.getD_some, hcidem, hre]
              rw [copyDir_cons_dir_ok name c rest hmem f hre2]
              rw [hlookf, Option.getD_some, hcidem]
              rw [setEntry_noop f name _ hlookf]
              have hrun := ihN rest
                (.dir (setEntry d name (copyDir c ((lookupE d name).getD (.dir []))).1))
                hlerest hrest
              rw [hR] at hrun
              exact hrun

theorem copyDir_idem (l : List (String × FSTree)) (dest : FSTree)
    (hnd : nodupE l = true) : copyDir l (copyDir l dest).1 = copyDir l dest :=
  copyDir_idem_aux (sizeOf l) l dest le_rfl hnd

theorem copyFile2_overwrite (name content : String) (c : List (String × FSTree))
    (cc : String) (h : lookupE c name = some (.file cc)) :
    copyFile2 name content c = (setEntry c name (.file content), none) := by
  unfold copyFile2
  rw [h]

theorem copyDir_self_aux :
    ∀ (N : Nat) (l c : List (String × FSTree)), sizeOf l ≤ N →
      (∀ n t, (n, t) ∈ l → lookupE c n = some t) →
      (∀ n t, (n, t) ∈ l → nodupT t = true) →
      copyDir l (.dir c) = (.dir c, none) := by
  intro N
  induction N with
  | zero =>
    intro l c hle
    exfalso
    cases l <;> simp_arith at hle
  | succ N ihN =>
    intro l c hle hsub hnd
    cases l with
    | nil => rw [copyDir_nil]
    | cons hd rest =>
      obtain ⟨name, item⟩ := hd
      have hlerest : sizeOf rest ≤ N := by
        have h2 := hle
        simp_arith at h2
        omega
      have hsubrest : ∀ n t, (n, t) ∈ rest → lookupE c n = some t :=
        fun n t hm => hsub n t (List.mem_cons_of_mem _ hm)
      have hndrest : ∀ n t, (n, t) ∈ rest → nodupT t = true :=
        fun n t hm => hnd n t (List.mem_cons_of_mem _ hm)
      have hlook : lookupE c name = some item := hsub name item (List.mem_cons_self _ _)
      by_cases hmem : name ∈ excluded
      · rw [copyDir_cons_excl name item rest hmem]
        exact ihN rest c hlerest hsubrest hndrest
      · cases item with
        | file content =>
          have hov := copyFile2_overwrite name content c content hlook
          have hre : (copyFile2 name content c).2 = none := by rw [hov]
          rw [copyDir_cons_file_ok name content rest hmem c hre, hov,
            setEntry_noop c name _ hlook]
          exact ihN rest c hlerest hsubrest hndrest
        | dir cc =>
          have hccnd : nodupE cc = true := hnd name (.dir cc) (List.mem_cons_self _ _)
          have hlecc : sizeOf cc ≤ N := by
            have h2 := hle
            simp_arith at h2
            omega
          have hself : copyDir cc (.dir cc) = (.dir cc, none) :=
            ihN cc cc hlecc
              (fun n t hm => nodupE_lookup_mem cc n t hccnd hm)
              (fun n t hm => nodupE_mem_nodupT cc n t hccnd hm)
          have hre : (copyDir cc ((lookupE c name).getD (.dir []))).2 = none := by
            rw [hlook, Option.getD_some, hself]
          rw [copyDir_cons_dir_ok name cc rest hmem c hre, hlook, Option.getD_some,
            hself, setEntry_noop c name _ hlook]
          exact ihN rest c hlerest hsubrest hndrest

theorem copyDir_self (c : List (String × FSTree)) (hnd : nodupE c = true) :
    copyDir c (.dir c) = (.dir c, none) :=
  copyDir_self_aux (sizeOf c) c c le_rfl
    (fun n t hm => nodupE_lookup_mem c n t hnd hm)
    (fun n t hm => nodupE_mem_nodupT c n t hnd hm)

theorem syncEntries_idem_aux (src : List (String × FSTree)) :
    nodupE src = true → ∀ dest : List (String × FSTree),
      syncEntries src (syncEntries src dest).1 = syncEntries src dest := by
  induction src with
  | nil => intro _ dest; rw [syncEntries_nil, syncEntries_nil]
  | cons hd rest ih =>
    obtain ⟨name, item⟩ := hd
    intro hnd dest
    obtain ⟨habs, hdirt, hrest⟩ := nodupE_cons name item rest hnd
    by_cases hmem : name ∈ excluded
    · simp only [syncEntries_cons_excl name item rest hmem]
      exact ih hrest _
    · cases item with
      | file content =>
        cases hre : (copyFile2 name content dest).2 with
        | some e =>
          rw [syncEntries_cons_file_err name content rest dest e hmem hre,
            copyFile2_err_state name content dest e hre,
            syncEntries_cons_file_err name content rest dest e hmem hre,
            copyFile2_err_state name content dest e hre]
        | none =>
          rw [syncEntries_cons_file_ok name content rest dest hmem hre]
          have hlookf :
              lookupE (syncEntries rest (copyFile2 name content dest).1).1 name =
                lookupE (copyFile2 name content dest).1 name :=
            syncEntries_lookup_ne rest name habs _
          have hidem := copyFile2_idem name content dest _ hre hlookf
          have hre2 : (copyFile2 name content
              (syncEntries rest (copyFile2 name content dest).1).1).2 = none := by
            rw [hidem]
          have h1 : (copyFile2 name content
              (syncEntries rest (copyFile2 name content dest).1).1).1 =
              (syncEntries rest (copyFile2 name content dest).1).1 := by
            rw [hidem]
          rw [syncEntries_cons_file_ok name content rest _ hmem hre2, h1]
          exact ih hrest _
      | dir c =>
        have hc : nodupE c = true := hdirt c rfl
        cases hl : lookupE dest name with
        | some destItem =>
          have hidem := copyDir_idem c destItem hc
          cases hre : (copyDir c destItem).2 with
          | some e =>
            rw [syncEntries_cons_dir_merge_err name c rest dest destItem e hmem hl hre]
            have hlook1 : lookupE (setEntry dest name (copyDir c destItem).1) name =
                some (copyDir c destItem).1 := lookupE_set_self dest name _
            have hre2 : (copyDir c (copyDir c destItem).1).2 = some e := by
              rw [hidem, hre]
            have h1 : (copyDir c (copyDir c destItem).1).1 = (copyDir c destItem).1 := by
              rw [hidem]
            rw [syncEntries_cons_dir_merge_err name c rest _
              ((copyDir c destItem).1) e hmem hlook1 hre2, h1, setEntry_setEntry]
          | none =>
            rw [syncEntries_cons_dir_merge_ok name c rest dest destItem hmem hl hre]
            have hlookf : lookupE
                (syncEntries rest (setEntry dest name (copyDir c destItem).1)).1 name =
                some (copyDir c destItem).1 := by
              rw [syncEntries_lookup_ne rest name habs _, lookupE_set_self]
            have hre2 : (copyDir c (copyDir c destItem).1).2 = none := by
              rw [hidem, hre]
            have h1 : (copyDir c (copyDir c destItem).1).1 = (copyDir c destItem).1 := by
              rw [hidem]
            rw [syncEntries_cons_dir_merge_ok name c rest _
              ((copyDir c destItem).1) hmem hlookf hre2, h1,
              setEntry_noop _ name _ hlookf]
            exact ih hrest _
        | none =>
          rw [syncEntries_cons_dir_new name c rest dest hmem hl]
          have hself := copyDir_self c hc
          have hlookf : lookupE
              (syncEntries rest (setEntry dest name (.dir c))).1 name =
              some (.dir c) := by
            rw [syncEntries_lookup_ne rest name habs _, lookupE_set_self]
          have hre2 : (copyDir c (.dir c)).2 = none := by rw [hself]
          have h1 : (copyDir c (.dir c)).1 = .dir c := by rw [hself]
          rw [syncEntries_cons_dir_merge_ok name c rest _ (.dir c) hmem hlookf hre2,
            h1, setEntry_noop _ name _ hlookf]
          exact ih hrest _

theorem getPath_nil (t : FSTree) : getPath t [] = some t := by
  cases t <;> simp [getPath]

theorem getPath_file_cons (c : String) (m : String) (p : List String) :
    getPath (.file c) (m :: p) = none := by
  rw [getPath.eq_def]

theorem getPath_dir_cons_some (d : List (String × FSTree)) (m : String)
    (p : List String) (w : FSTree) (hl : lookupE d m = some w) :
    getPath (.dir d) (m :: p) = getPath w p := by
  simp [getPath, hl]

theorem getPath_dir_cons_none (d : List (String × FSTree)) (m : String)
    (p : List String) (hl : lookupE d m = none) :
    getPath (.dir d) (m :: p) = none := by
  simp [getPath, hl]

theorem copyFile2_ok_set (name content : String) (d : List (String × FSTree))
    (h : (copyFile2 name content d).2 = none) :
    ∃ X, (copyFile2 name content d).1 = setEntry d name X := by
  unfold copyFile2 at h ⊢
  cases hd : lookupE d name with
  | none => exact ⟨.file content, rfl⟩
  | some w =>
    cases w with
    | file c => simp [hd]
    | dir d2 =>
      cases hd2 : lookupE d2 name with
      | none => simp [hd, hd2]
      | some w2 =>
        cases w2 with
        | file c2 => simp [hd, hd2]
        | dir dd => simp [hd, hd2] at h

theorem noFDC_nil (d : List (String × FSTree)) : noFileDirColl [] d = true := by
  rw [noFileDirColl.eq_def]

theorem noFDC_cons (n : String) (t : FSTree) (rest d : List (String × FSTree)) :
    noFileDirColl ((n, t) :: rest) d =
      ((match t, lookupE d n with
        | .file _, some (.dir _) => false
        | .dir c, some (.dir d2) => noFileDirColl c d2
        | _, _ => true) && noFileDirColl rest d) := by
  rw [noFileDirColl.eq_def]

theorem noFDC_rest (n : String) (t : FSTree) (rest d : List (String × FSTree))
    (h : noFileDirColl ((n, t) :: rest) d = true) : noFileDirColl rest d = true := by
  rw [noFDC_cons] at h
  exact (Bool.and_eq_true .. ▸ h).2

theorem noFDC_head_file (n cc : String) (rest d d2 : List (String × FSTree))
    (h : noFileDirColl ((n, .file cc) :: rest) d = true)
    (hl : lookupE d n = some (.dir d2)) : False := by
  rw [noFDC_cons, hl] at h
  simp at h

theorem noFDC_head_dir (n : String) (c rest d d2 : List (String × FSTree))
    (h : noFileDirColl ((n, .dir c) :: rest) d = true)
    (hl : lookupE d n = some (.dir d2)) : noFileDirColl c d2 = true := by
  rw [noFDC_cons, hl] at h
  exact (Bool.and_eq_true .. ▸ h).1

theorem noFDC_set (l2 : List (String × FSTree)) (name : String) (X : FSTree)
    (d : List (String × FSTree)) (habs : lookupE l2 name = none) :
    noFileDirColl l2 (setEntry d name X) = noFileDirColl l2 d := by
  induction l2 with
  | nil => rw [noFDC_nil, noFDC_nil]
  | cons hd tl ih =>
    obtain ⟨n, t⟩ := hd
    have hn : n ≠ name := by
      intro hh
      subst hh
      simp [lookupE] at habs
    have htl : lookupE tl name = none := by
      simpa [lookupE, hn] using habs
    rw [noFDC_cons, noFDC_cons, lookupE_set_ne d name n X hn, ih htl]

theorem noFDT_dir (l d : List (String × FSTree)) :
    noFDT l (.dir d) = noFileDirColl l d := rfl

theorem copyDir_nondestr_aux :
    ∀ (N : Nat) (l : List (String × FSTree)) (dt : FSTree), sizeOf l ≤ N →
      nodupE l = true → noFDT l dt = true →
      ∀ (p : List String) (v : FSTree),
        getPath dt p = some v → getPath (.dir l) p = none →
        getPath (copyDir l dt).1 p = some v := by
  intro N
  induction N with
  | zero =>
    intro l dt hle
    exfalso
    cases l <;> simp_arith at hle
  | succ N ihN =>
    intro l dt hle hnd hfd p v hod hos
    cases p with
    | nil =>
      rw [getPath_nil] at hos
      cases hos
    | cons m p' =>
      cases dt with
      | file cc =>
        rw [getPath_file_cons] at hod
        cases hod
      | dir d =>
        cases l with
        | nil =>
          rw [copyDir_nil]
          exact hod
        | cons hd rest =>
          obtain ⟨name, item⟩ := hd
          obtain ⟨habs, hdirt, hrest⟩ := nodupE_cons name item rest hnd
          rw [noFDT_dir] at hfd
          have hlerest : sizeOf rest ≤ N := by
            have h2 := hle
            simp_arith at h2
            omega
          cases hw : lookupE d m with
          | none =>
            rw [getPath_dir_cons_none d m p' hw] at hod
            cases hod
          | some w =>
          have hodw : getPath w p' = some v := by
            rw [getPath_dir_cons_some d m p' w hw] at hod
            exact hod
          by_cases hmem : name ∈ excluded
          · rw [copyDir_cons_excl name item rest hmem]
            have hfd' : noFDT rest (.dir d) = true := by
              rw [noFDT_dir]
              exact noFDC_rest name item rest d hfd
            have hos' : getPath (.dir rest) (m :: p') = none := by
              by_cases hnm : name = m
              · subst hnm
                exact getPath_dir_cons_none rest name p' habs
              · cases hr : lookupE rest m with
                | none => exact getPath_dir_cons_none rest m p' hr
                | some u =>
                  rw [getPath_dir_cons_some rest m p' u hr]
                  have hlc : lookupE ((name, item) :: rest) m = some u := by
                    simp [lookupE, hnm, hr]
                  rw [getPath_dir_cons_some _ m p' u hlc] at hos
                  exact hos
            exact ihN rest (.dir d) hlerest hrest hfd' (m :: p') v hod hos'
          · by_cases hnm : name = m
            · subst hnm
              have hlc : lookupE ((name, item) :: rest) name = some item := by
                simp [lookupE]
              have hos2 : getPath item p' = none := by
                rw [getPath_dir_cons_some _ name p' item hlc] at hos
                exact hos
              cases item with
              | file content =>
                cases p' with
                | nil =>
                  rw [getPath_nil] at hos2
                  cases hos2
                | cons q p'' =>
                  cases w with
                  | file wc =>
                    rw [getPath_file_cons] at hodw
                    cases hodw
                  | dir d2 => exact (noFDC_head_file name content rest d d2 hfd hw).elim
              | dir c =>
                have hc : nodupE c = true := hdirt c rfl
                have hlec : sizeOf c ≤ N := by
                  have h2 := hle
                  simp_arith at h2
                  omega
                cases w with
                | file wc =>
                  cases p' with
                  | cons q p'' =>
                    rw [getPath_file_cons] at hodw
                    cases hodw
                  | nil =>
                    rw [getPath_nil] at hos2
                    cases hos2
                | dir d2 =>
                  have hfdc : noFileDirColl c d2 = true :=
                    noFDC_head_dir name c rest d d2 hfd hw
                  have hDI : (lookupE d name).getD (.dir []) = .dir d2 := by
                    rw [hw]
                    rfl
                  have hinner : getPath (copyDir c (.dir d2)).1 p' = some v :=
                    ihN c (.dir d2) hlec hc (by rw [noFDT_dir]; exact hfdc) p' v hodw hos2
                  cases hre : (copyDir c ((lookupE d name).getD (.dir []))).2 with
                  | some e =>
                    rw [copyDir_cons_dir_err name c rest hmem d e hre]
                    rw [getPath_dir_cons_some _ name p' _ (lookupE_set_self d name _),
                      hDI]
                    exact hinner
                  | none =>
                    rw [copyDir_cons_dir_ok name c rest hmem d hre]
                    apply ihN rest _ hlerest hrest ?fd (name :: p') v ?od ?os
                    case fd =>
                      rw [noFDT_dir, noFDC_set rest name _ d habs]
                      exact noFDC_rest name (.dir c) rest d hfd
                    case od =>
                      rw [getPath_dir_cons_some _ name p' _ (lookupE_set_self d name _),
                        hDI]
                      exact hinner
                    case os => exact getPath_dir_cons_none rest name p' habs
            · have hmn : m ≠ name := Ne.symm hnm
              have hos' : getPath (.dir rest) (m :: p') = none := by
                cases hr : lookupE rest m with
                | none => exact getPath_dir_cons_none rest m p' hr
                | some u =>
                  rw [getPath_dir_cons_some rest m p' u hr]
                  have hlc : lookupE ((name, item) :: rest) m = some u := by
                    simp [lookupE, hnm, hr]
                  rw [getPath_dir_cons_some _ m p' u hlc] at hos
                  exact hos
              cases item with
              | file content =>
                cases hre : (copyFile2 name content d).2 with
                | some e =>
                  rw [copyDir_cons_file_err name content rest hmem d e hre]
                  have hl2 : lookupE (copyFile2 name content d).1 m = some w := by
                    rw [copyFile2_lookup_ne name content d m hmn]
                    exact hw
                  rw [getPath_dir_cons_some _ m p' w hl2]
                  exact hodw
                | none =>
                  rw [copyDir_cons_file_ok name content rest hmem d hre]
                  obtain ⟨X, hX⟩ := copyFile2_ok_set name content d hre
                  apply ihN rest _ hlerest hrest ?fd2 (m :: p') v ?od2 hos'
                  case fd2 =>
                    rw [noFDT_dir, hX, noFDC_set rest name X d habs]
                    exact noFDC_rest name (.file content) rest d hfd
                  case od2 =>
                    have hl2 : lookupE (copyFile2 name content d).1 m = some w := by
                      rw [copyFile2_lookup_ne name content d m hmn]
                      exact hw
                    rw [getPath_dir_cons_some _ m p' w hl2]
                    exact hodw
              | dir c =>
                cases hre : (copyDir c ((lookupE d name).getD (.dir []))).2 with
                | some e =>
                  rw [copyDir_cons_dir_err name c rest hmem d e hre]
                  have hl2 : lookupE (setEntry d name
                      (copyDir c ((lookupE d name).getD (.dir []))).1) m = some w := by
                    rw [lookupE_set_ne d name m _ hmn]
                    exact hw
                  rw [getPath_dir_cons_some _ m p' w hl2]
                  exact hodw
                | none =>
                  rw [copyDir_cons_dir_ok name c rest hmem d hre]
                  apply ihN rest _ hlerest hrest ?fd3 (m :: p') v ?od3 hos'
                  case fd3 =>
                    rw [noFDT_dir, noFDC_set rest name _ d habs]
                    exact noFDC_rest name (.dir c) rest d hfd
                  case od3 =>
                    have hl2 : lookupE (setEntry d name
                        (copyDir c ((lookupE d name).getD (.dir []))).1) m = some w := by
                      rw [lookupE_set_ne d name m _ hmn]
                      exact hw
                    rw [getPath_dir_cons_some _ m p' w hl2]
                    exact hodw

theorem copyDir_nondestr (l : List (String × FSTree)) (dt : FSTree)
    (hnd : nodupE l = true) (hfd : noFDT l dt = true)
    (p : List String) (v : FSTree)
    (hod : getPath dt p = some v) (hos : getPath (.dir l) p = none) :
    getPath (copyDir l dt).1 p = some v :=
  copyDir_nondestr_aux (sizeOf l) l dt le_rfl hnd hfd p v hod hos

theorem syncEntries_nondestr (src : List (String × FSTree)) :
    nodupE src = true → ∀ dest : List (String × FSTree),
      noFileDirColl src dest = true →
      ∀ (p : List String) (v : FSTree),
        getPath (.dir dest) p = some v → getPath (.dir src) p = none →
        getPath (.dir (syncEntries src dest).1) p = some v := by
  induction src with
  | nil =>
    intro _ dest _ p v hod _
    rw [syncEntries_nil]
    exact hod
  | cons hd rest ih =>
    obtain ⟨name, item⟩ := hd
    intro hnd dest hfd p v hod hos
    obtain ⟨habs, hdirt, hrest⟩ := nodupE_cons name item rest hnd
    cases p with
    | nil =>
      rw [getPath_nil] at hos
      cases hos
    | cons m p' =>
      cases hw : lookupE dest m with
      | none =>
        rw [getPath_dir_cons_none dest m p' hw] at hod
        cases hod
      | some w =>
      have hodw : getPath w p' = some v := by
        rw [getPath_dir_cons_some dest m p' w hw] at hod
        exact hod
      by_cases hmem : name ∈ excluded
      · rw [syncEntries_cons_excl name item rest hmem]
        have hos' : getPath (.dir rest) (m :: p') = none := by
          by_cases hnm : name = m
          · subst hnm
            exact getPath_dir_cons_none rest name p' habs
          · cases hr : lookupE rest m with
            | none => exact getPath_dir_cons_none rest m p' hr
            | some u =>
              rw [getPath_dir_cons_some rest m p' u hr]
              have hlc : lookupE ((name, item) :: rest) m = some u := by
                simp [lookupE, hnm, hr]
              rw [getPath_dir_cons_some _ m p' u hlc] at hos
              exact hos
        exact ih hrest dest (noFDC_rest name item rest dest hfd) (m :: p') v hod hos'
      · by_cases hnm : name = m
        · subst hnm
          have hlc : lookupE ((name, item) :: rest) name = some item := by
            simp [lookupE]
          have hos2 : getPath item p' = none := by
            rw [getPath_dir_cons_some _ name p' item hlc] at hos
            exact hos
          cases item with
          | file content =>
            cases p' with
            | nil =>
              rw [getPath_nil] at hos2
              cases hos2
            | cons q p'' =>
              cases w with
              | file wc =>
                rw [getPath_file_cons] at hodw
                cases hodw
              | dir d2 => exact (noFDC_head_file name content rest dest d2 hfd hw).elim
          | dir c =>
            have hc : nodupE c = true := hdirt c rfl
            cases w with
            | file wc =>
              cases p' with
              | cons q p'' =>
                rw [getPath_file_cons] at hodw
                cases hodw
              | nil =>
                rw [getPath_nil] at hos2
                cases hos2
            | dir d2 =>
              have hfdc : noFileDirColl c d2 = true :=
                noFDC_head_dir name c rest dest d2 hfd hw
              have hinner : getPath (copyDir c (.dir d2)).1 p' = some v :=
                copyDir_nondestr c (.dir d2) hc (by rw [noFDT_dir]; exact hfdc)
                  p' v hodw hos2
              cases hre : (copyDir c (.dir d2)).2 with
              | some e =>
                rw [syncEntries_cons_dir_merge_err name c rest dest (.dir d2) e
                  hmem hw hre]
                rw [getPath_dir_cons_some _ name p' _ (lookupE_set_self dest name _)]
                exact hinner
              | none =>
                rw [syncEntries_cons_dir_merge_ok name c rest dest (.dir d2)
                  hmem hw hre]
                apply ih hrest _ ?fd (name :: p') v ?od ?os
                case fd =>
                  rw [noFDC_set rest name _ dest habs]
                  exact noFDC_rest name (.dir c) rest dest hfd
                case od =>
                  rw [getPath_dir_cons_some _ name p' _ (lookupE_set_self dest name _)]
                  exact hinner
                case os => exact getPath_dir_cons_none rest name p' habs
        · have hmn : m ≠ name := Ne.symm hnm
          have hos' : getPath (.dir rest) (m :: p') = none := by
            cases hr : lookupE rest m with
            | none => exact getPath_dir_cons_none rest m p' hr
            | some u =>
              rw [getPath_dir_cons_some rest m p' u hr]
              have hlc : lookupE ((name, item) :: rest) m = some u := by
                simp [lookupE, hnm, hr]
              rw [getPath_dir_cons_some _ m p' u hlc] at hos
              exact hos
          cases item with
          | file content =>
            cases hre : (copyFile2 name content dest).2 with
            | some e =>
              rw [syncEntries_cons_file_err name content rest dest e hmem hre]
              have hl2 : lookupE (copyFile2 name content dest).1 m = some w := by
                rw [copyFile2_lookup_ne name content dest m hmn]
                exact hw
              rw [getPath_dir_cons_some _ m p' w hl2]
              exact hodw
            | none =>
              rw [syncEntries_cons_file_ok name content rest dest hmem hre]
              obtain ⟨X, hX⟩ := copyFile2_ok_set name content dest hre
              apply ih hrest _ ?fd2 (m :: p') v ?od2 hos'
              case fd2 =>
                rw [hX, noFDC_set rest name X dest habs]
                exact noFDC_rest name (.file content) rest dest hfd
              case od2 =>
                have hl2 : lookupE (copyFile2 name content dest).1 m = some w := by
                  rw [copyFile2_lookup_ne name content dest m hmn]
                  exact hw
                rw [getPath_dir_cons_some _ m p' w hl2]
                exact hodw
          | dir c =>
            cases hl : lookupE dest name with
            | some destItem =>
              cases hre : (copyDir c destItem).2 with
              | some e =>
                rw [syncEntries_cons_dir_merge_err name c rest dest destItem e
                  hmem hl hre]
                have hl2 : lookupE (setEntry dest name (copyDir c destItem).1) m =
                    some w := by
                  rw [lookupE_set_ne dest name m _ hmn]
                  exact hw
                rw [getPath_dir_cons_some _ m p' w hl2]
                exact hodw
              | none =>
                rw [syncEntries_cons_dir_merge_ok name c rest dest destItem hmem hl hre]
                apply ih hrest _ ?fd3 (m :: p') v ?od3 hos'
                case fd3 =>
                  rw [noFDC_set rest name _ dest habs]
                  exact noFDC_rest name (.dir c) rest dest hfd
                case od3 =>
                  have hl2 : lookupE (setEntry dest name (copyDir c destItem).1) m =
                      some w := by
                    rw [lookupE_set_ne dest name m _ hmn]
                    exact hw
                  rw [getPath_dir_cons_some _ m p' w hl2]
                  exact hodw
            | none =>
              rw [syncEntries_cons_dir_new name c rest dest hmem hl]
              apply ih hrest _ ?fd4 (m :: p') v ?od4 hos'
              case fd4 =>
                rw [noFDC_set rest name _ dest habs]
                exact noFDC_rest name (.dir c) rest dest hfd
              case od4 =>
                have hl2 : lookupE (setEntry dest name (.dir c)) m = some w := by
                  rw [lookupE_set_ne dest name m _ hmn]
                  exact hw
                rw [getPath_dir_cons_some _ m p' w hl2]
                exact hodw

theorem copyDir_override_aux :
    ∀ (N : Nat) (l : List (String × FSTree)) (dt : FSTree), sizeOf l ≤ N →
      nodupE l = true → (copyDir l dt).2 = none →
      ∀ (p : List String) (ct : String),
        (∀ n, n ∈ p → n ∉ excluded) →
        getPath (.dir l) p = some (.file ct) →
        (∃ c0, getPath dt p = some (.file c0)) →
        getPath (copyDir l dt).1 p = some (.file ct) := by
  intro N
  induction N with
  | zero =>
    intro l dt hle
    exfalso
    cases l <;> simp_arith at hle
  | succ N ihN =>
    intro l dt hle hnd hok p ct hp hsrc hdst
    obtain ⟨c0, hd0⟩ := hdst
    cases p with
    | nil =>
      rw [getPath_nil] at hsrc
      cases l <;> simp at hsrc
    | cons m p' =>
      have hexc : m ∉ excluded := hp m (List.mem_cons_self _ _)
      have hp' : ∀ n, n ∈ p' → n ∉ excluded :=
        fun n hn => hp n (List.mem_cons_of_mem _ hn)
      cases dt with
      | file cc =>
        rw [getPath_file_cons] at hd0
        cases hd0
      | dir d =>
        cases hw : lookupE d m with
        | none =>
          rw [getPath_dir_cons_none d m p' hw] at hd0
          cases hd0
        | some w =>
        have hd0w : getPath w p' = some (.file c0) := by
          rw [getPath_dir_cons_some d m p' w hw] at hd0
          exact hd0
        cases l with
        | nil =>
          rw [getPath_dir_cons_none [] m p' (by simp [lookupE])] at hsrc
          cases hsrc
        | cons hd rest =>
          obtain ⟨name, item⟩ := hd
          obtain ⟨habs, hdirt, hrest⟩ := nodupE_cons name item rest hnd
          have hlerest : sizeOf rest ≤ N := by
            have h2 := hle
            simp_arith at h2
            omega
          by_cases hmem : name ∈ excluded
          · have hnm : name ≠ m := by
              intro hh
              subst hh
              exact hexc hmem
            rw [copyDir_cons_excl name item rest hmem] at hok ⊢
            have hsrc' : getPath (.dir rest) (m :: p') = some (.file ct) := by
              cases hr : lookupE rest m with
              | none =>
                have hlc : lookupE ((name, item) :: rest) m = none := by
                  simp [lookupE, hnm, hr]
                rw [getPath_dir_cons_none _ m p' hlc] at hsrc
                cases hsrc
              | some u =>
                have hlc : lookupE ((name, item) :: rest) m = some u := by
                  simp [lookupE, hnm, hr]
                rw [getPath_dir_cons_some _ m p' u hlc] at hsrc
                rw [getPath_dir_cons_some rest m p' u hr]
                exact hsrc
            exact ihN rest (.dir d) hlerest hrest hok (m :: p') ct hp hsrc' ⟨c0, hd0⟩
          · by_cases hnm : name = m
            · subst hnm
              have hlc : lookupE ((name, item) :: rest) name = some item := by
                simp [lookupE]
              have hsrc2 : getPath item p' = some (.file ct) := by
                rw [getPath_dir_cons_some _ name p' item hlc] at hsrc
                exact hsrc
              cases item with
              | file content =>
                cases p' with
                | cons q p'' =>
                  rw [getPath_file_cons] at hsrc2
                  cases hsrc2
                | nil =>
                  rw [getPath_nil] at hsrc2
                  have hct : content = ct := by
                    have := Option.some.injEq .. ▸ hsrc2
                    exact (FSTree.file.injEq .. ▸ this)
                  subst hct
                  cases w with
                  | dir d2 =>
                    rw [getPath_nil] at hd0w
                    cases hd0w
                  | file wc =>
                    have hw2 : lookupE d name = some (.file wc) := hw
                    have hov := copyFile2_overwrite name content d wc hw2
                    have hre : (copyFile2 name content d).2 = none := by rw [hov]
                    rw [copyDir_cons_file_ok name content rest hmem d hre] at hok ⊢
                    obtain ⟨f, eF, hR⟩ :=
                      copyDir_dir_shape rest (copyFile2 name content d).1
                    rw [hR]
                    have hlf : lookupE f name = some (.file content) := by
                      rw [copyDir_lookup_ne rest name habs _ f eF hR, hov,
                        lookupE_set_self]
                    rw [getPath_dir_cons_some f name [] _ hlf, getPath_nil]
              | dir c =>
                have hc : nodupE c = true := hdirt c rfl
                have hlec : sizeOf c ≤ N := by
                  have h2 := hle
                  simp_arith at h2
                  omega
                cases w with
                | file wc =>
                  cases p' with
                  | nil =>
                    rw [getPath_nil] at hsrc2
                    cases hsrc2
                  | cons q p'' =>
                    rw [getPath_file_cons] at hd0w
                    cases hd0w
                | dir d2 =>
                  have hDI : (lookupE d name).getD (.dir []) = .dir d2 := by
                    rw [hw]
                    rfl
                  cases hre : (copyDir c ((lookupE d name).getD (.dir []))).2 with
                  | some e =>
                    rw [copyDir_cons_dir_err name c rest hmem d e hre] at hok
                    cases hok
                  | none =>
                    have hreDI : (copyDir c (.dir d2)).2 = none := by
                      rw [← hDI]
                      exact hre
                    have hinner : getPath (copyDir c (.dir d2)).1 p' =
                        some (.file ct) :=
                      ihN c (.dir d2) hlec hc hreDI p' ct hp' hsrc2 ⟨c0, hd0w⟩
                    rw [copyDir_cons_dir_ok name c rest hmem d hre] at hok ⊢
                    obtain ⟨f, eF, hR⟩ := copyDir_dir_shape rest
                      (setEntry d name (copyDir c ((lookupE d name).getD (.dir []))).1)
                    rw [hR]
                    have hlf : lookupE f name =
                        some (copyDir c ((lookupE d name).getD (.dir []))).1 := by
                      rw [copyDir_lookup_ne rest name habs _ f eF hR, lookupE_set_self]
                    rw [getPath_dir_cons_some f name p' _ hlf, hDI]
                    exact hinner
            · have hmn : m ≠ name := Ne.symm hnm
              have hsrc' : getPath (.dir rest) (m :: p') = some (.file ct) := by
                cases hr : lookupE rest m with
                | none =>
                  have hlc : lookupE ((name, item) :: rest) m = none := by
                    simp [lookupE, hnm, hr]
                  rw [getPath_dir_cons_none _ m p' hlc] at hsrc
                  cases hsrc
                | some u =>
                  have hlc : lookupE ((name, item) :: rest) m = some u := by
                    simp [lookupE, hnm, hr]
                  rw [getPath_dir_cons_some _ m p' u hlc] at hsrc
                  rw [getPath_dir_cons_some rest m p' u hr]
                  exact hsrc
              cases item with
              | file content =>
                cases hre : (copyFile2 name content d).2 with
                | some e =>
                  rw [copyDir_cons_file_err name content rest hmem d e hre] at hok
                  cases hok
                | none =>
                  rw [copyDir_cons_file_ok name content rest hmem d hre] at hok ⊢
                  have hl2 : lookupE (copyFile2 name content d).1 m = some w := by
                    rw [copyFile2_lookup_ne name content d m hmn]
                    exact hw
                  apply ihN rest _ hlerest hrest hok (m :: p') ct hp hsrc'
                  refine ⟨c0, ?_⟩
                  rw [getPath_dir_cons_some _ m p' w hl2]
                  exact hd0w
              | dir c =>
                cases hre : (copyDir c ((lookupE d name).getD (.dir []))).2 with
                | some e =>
                  rw [copyDir_cons_dir_err name c rest hmem d e hre] at hok
                  cases hok
                | none =>
                  rw [copyDir_cons_dir_ok name c rest hmem d hre] at hok ⊢
                  have hl2 : lookupE (setEntry d name
                      (copyDir c ((lookupE d name).getD (.dir []))).1) m = some w := by
                    rw [lookupE_set_ne d name m _ hmn]
                    exact hw
                  apply ihN rest _ hlerest hrest hok (m :: p') ct hp hsrc'
                  refine ⟨c0, ?_⟩
                  rw [getPath_dir_cons_some _ m p' w hl2]
                  exact hd0w

theorem copyDir_override (l : List (String × FSTree)) (dt : FSTree)
    (hnd : nodupE l = true) (hok : (copyDir l dt).2 = none)
    (p : List String) (ct : String)
    (hp : ∀ n, n ∈ p → n ∉ excluded)
    (hsrc : getPath (.dir l) p = some (.file ct))
    (hdst : ∃ c0, getPath dt p = some (.file c0)) :
    getPath (copyDir l dt).1 p = some (.file ct) :=
  copyDir_override_aux (sizeOf l) l dt le_rfl hnd hok p ct hp hsrc hdst

theorem syncEntries_override (src : List (String × FSTree)) :
    nodupE src = true → ∀ dest : List (String × FSTree),
      (syncEntries src dest).2 = none →
      ∀ (p : List String) (ct : String),
        (∀ n, n ∈ p → n ∉ excluded) →
        getPath (.dir src) p = some (.file ct) →
        (∃ c0, getPath (.dir dest) p = some (.file c0)) →
        getPath (.dir (syncEntries src dest).1) p = some (.file ct) := by
  induction src with
  | nil =>
    intro _ dest _ p ct _ hsrc _
    cases p with
    | nil =>
      rw [getPath_nil] at hsrc
      simp at hsrc
    | cons m p' =>
      rw [getPath_dir_cons_none [] m p' (by simp [lookupE])] at hsrc
      cases hsrc
  | cons hd rest ih =>
    obtain ⟨name, item⟩ := hd
    intro hnd dest hok p ct hp hsrc hdst
    obtain ⟨c0, hd0⟩ := hdst
    obtain ⟨habs, hdirt, hrest⟩ := nodupE_cons name item rest hnd
    cases p with
    | nil =>
      rw [getPath_nil] at hsrc
      simp at hsrc
    | cons m p' =>
      have hexc : m ∉ excluded := hp m (List.mem_cons_self _ _)
      have hp' : ∀ n, n ∈ p' → n ∉ excluded :=
        fun n hn => hp n (List.mem_cons_of_mem _ hn)
      cases hw : lookupE dest m with
      | none =>
        rw [getPath_dir_cons_none dest m p' hw] at hd0
        cases hd0
      | some w =>
      have hd0w : getPath w p' = some (.file c0) := by
        rw [getPath_dir_cons_some dest m p' w hw] at hd0
        exact hd0
      by_cases hmem : name ∈ excluded
      · have hnm : name ≠ m := by
          intro hh
          subst hh
          exact hexc hmem
        rw [syncEntries_cons_excl name item rest hmem] at hok ⊢
        have hsrc' : getPath (.dir rest) (m :: p') = some (.file ct) := by
          cases hr : lookupE rest m with
          | none =>
            have hlc : lookupE ((name, item) :: rest) m = none := by
              simp [lookupE, hnm, hr]
            rw [getPath_dir_cons_none _ m p' hlc] at hsrc
            cases hsrc
          | some u =>
            have hlc : lookupE ((name, item) :: rest) m = some u := by
              simp [lookupE, hnm, hr]
            rw [getPath_dir_cons_some _ m p' u hlc] at hsrc
            rw [getPath_dir_cons_some rest m p' u hr]
            exact hsrc
        exact ih hrest dest hok (m :: p') ct hp hsrc' ⟨c0, hd0⟩
      · by_cases hnm : name = m
        · subst hnm
          have hlc : lookupE ((name, item) :: rest) name = some item := by
            simp [lookupE]
          have hsrc2 : getPath item p' = some (.file ct) := by
            rw [getPath_dir_cons_some _ name p' item hlc] at hsrc
            exact hsrc
          cases item with
          | file content =>
            cases p' with
            | cons q p'' =>
              rw [getPath_file_cons] at hsrc2
              cases hsrc2
            | nil =>
              rw [getPath_nil] at hsrc2
              have hct : content = ct := by
                have h1 := Option.some.injEq .. ▸ hsrc2
                exact FSTree.file.injEq .. ▸ h1
              subst hct
              cases w with
              | dir d2 =>
                rw [getPath_nil] at hd0w
                cases hd0w
              | file wc =>
                have hov := copyFile2_overwrite name content dest wc hw
                have hre : (copyFile2 name content dest).2 = none := by rw [hov]
                rw [syncEntries_cons_file_ok name content rest dest hmem hre]
                have hlf : lookupE
                    (syncEntries rest (copyFile2 name content dest).1).1 name =
                    some (.file content) := by
                  rw [syncEntries_lookup_ne rest name habs _, hov, lookupE_set_self]
                rw [getPath_dir_cons_some _ name [] _ hlf, getPath_nil]
          | dir c =>
            have hc : nodupE c = true := hdirt c rfl
            cases w with
            | file wc =>
              cases p' with
              | nil =>
                rw [getPath_nil] at hsrc2
                cases hsrc2
              | cons q p'' =>
                rw [getPath_file_cons] at hd0w
                cases hd0w
            | dir d2 =>
              cases hre : (copyDir c (.dir d2)).2 with
              | some e =>
                rw [syncEntries_cons_dir_merge_err name c rest dest (.dir d2) e
                  hmem hw hre] at hok
                cases hok
              | none =>
                have hinner : getPath (copyDir c (.dir d2)).1 p' =
                    some (.file ct) :=
                  copyDir_override c (.dir d2) hc hre p' ct hp' hsrc2 ⟨c0, hd0w⟩
                rw [syncEntries_cons_dir_merge_ok name c rest dest (.dir d2)
                  hmem hw hre]
                have hlf : lookupE
                    (syncEntries rest
                      (setEntry dest name (copyDir c (.dir d2)).1)).1 name =
                    some (copyDir c (.dir d2)).1 := by
                  rw [syncEntries_lookup_ne rest name habs _, lookupE_set_self]
                rw [getPath_dir_cons_some _ name p' _ hlf]
                exact hinner
        · have hmn : m ≠ name := Ne.symm hnm
          have hsrc' : getPath (.dir rest) (m :: p') = some (.file ct) := by
            cases hr : lookupE rest m with
            | none =>
              have hlc : lookupE ((name, item) :: rest) m = none := by
                simp [lookupE, hnm, hr]
              rw [getPath_dir_cons_none _ m p' hlc] at hsrc
              cases hsrc
            | some u =>
              have hlc : lookupE ((name, item) :: rest) m = some u := by
                simp [lookupE, hnm, hr]
              rw [getPath_dir_cons_some _ m p' u hlc] at hsrc
              rw [getPath_dir_cons_some rest m p' u hr]
              exact hsrc
          cases item with
          | file content =>
            cases hre : (copyFile2 name content dest).2 with
            | some e =>
              rw [syncEntries_cons_file_err name content rest dest e hmem hre] at hok
              cases hok
            | none =>
              rw [syncEntries_cons_file_ok name content rest dest hmem hre] at hok ⊢
              have hl2 : lookupE (copyFile2 name content dest).1 m = some w := by
                rw [copyFile2_lookup_ne name content dest m hmn]
                exact hw
              apply ih hrest _ hok (m :: p') ct hp hsrc'
              refine ⟨c0, ?_⟩
              rw [getPath_dir_cons_some _ m p' w hl2]
              exact hd0w
          | dir c =>
            cases hl : lookupE dest name with
            | some destItem =>
              cases hre : (copyDir c destItem).2 with
              | some e =>
                rw [syncEntries_cons_dir_merge_err name c rest dest destItem e
                  hmem hl hre] at hok
                cases hok
              | none =>
                rw [syncEntries_cons_dir_merge_ok name c rest dest destItem
                  hmem hl hre] at hok ⊢
                have hl2 : lookupE (setEntry dest name (copyDir c destItem).1) m =
                    some w := by
                  rw [lookupE_set_ne dest name m _ hmn]
                  exact hw
                apply ih hrest _ hok (m :: p') ct hp hsrc'
                refine ⟨c0, ?_⟩
                rw [getPath_dir_cons_some _ m p' w hl2]
                exact hd0w
            | none =>
              rw [syncEntries_cons_dir_new name c rest dest hmem hl] at hok ⊢
              have hl2 : lookupE (setEntry dest name (.dir c)) m = some w := by
                rw [lookupE_set_ne dest name m _ hmn]
                exact hw
              apply ih hrest _ hok (m :: p') ct hp hsrc'
              refine ⟨c0, ?_⟩
              rw [getPath_dir_cons_some _ m p' w hl2]
              exact hd0w

theorem exFreeT_file (c : String) : exFreeT (.file c) = true := rfl

theorem exFreeT_dir (d : List (String × FSTree)) : exFreeT (.dir d) = exFreeE d := rfl

theorem exFreeE_nil : exFreeE [] = true := by
  rw [exFreeE.eq_def]

theorem exFreeE_cons (n : String) (t : FSTree) (rest : List (String × FSTree)) :
    exFreeE ((n, t) :: rest) =
      ((if n ∈ excluded then false else exFreeT t) && exFreeE rest) := by
  rw [exFreeE.eq_def]
  cases t <;> rfl

theorem exFreeE_cons_parts (n : String) (t : FSTree)
    (rest : List (String × FSTree)) (h : exFreeE ((n, t) :: rest) = true) :
    n ∉ excluded ∧ exFreeT t = true ∧ exFreeE rest = true := by
  rw [exFreeE_cons] at h
  obtain ⟨h1, h2⟩ := Bool.and_eq_true .. ▸ h
  by_cases hn : n ∈ excluded
  · simp [hn] at h1
  · simp [hn] at h1
    exact ⟨hn, h1, h2⟩

theorem exFreeE_lookup (d : List (String × FSTree)) (n : String) (t : FSTree)
    (h : exFreeE d = true) (hl : lookupE d n = some t) : exFreeT t = true := by
  induction d with
  | nil => simp [lookupE] at hl
  | cons hd tl ih =>
    obtain ⟨k, u⟩ := hd
    obtain ⟨_, hu, htl⟩ := exFreeE_cons_parts k u tl h
    by_cases hk : k = n
    · subst hk
      simp [lookupE] at hl
      subst hl
      exact hu
    · simp [lookupE, hk] at hl
      exact ih htl hl

theorem exFreeE_set (d : List (String × FSTree)) (n : String) (t : FSTree)
    (h : exFreeE d = true) (hn : n ∉ excluded) (ht : exFreeT t = true) :
    exFreeE (setEntry d n t) = true := by
  induction d with
  | nil =>
    simp only [setEntry]
    rw [exFreeE_cons, exFreeE_nil]
    simp [hn, ht]
  | cons hd tl ih =>
    obtain ⟨k, u⟩ := hd
    obtain ⟨hk0, hu, htl⟩ := exFreeE_cons_parts k u tl h
    by_cases hk : k = n
    · subst hk
      have hs : setEntry ((k, u) :: tl) k t = (k, t) :: tl := by simp [setEntry]
      rw [hs, exFreeE_cons]
      simp [hn, ht, htl]
    · have hs : setEntry ((k, u) :: tl) n t = (k, u) :: setEntry tl n t := by
        simp [setEntry, hk]
      rw [hs, exFreeE_cons]
      simp [hk0, hu, ih htl]

theorem copyFile2_absent (name content : String) (d : List (String × FSTree))
    (hd : lookupE d name = none) :
    copyFile2 name content d = (setEntry d name (.file content), none) := by
  unfold copyFile2
  rw [hd]

theorem copyFile2_join_absent (name content : String)
    (d d2 : List (String × FSTree)) (hd : lookupE d name = some (.dir d2))
    (hd2 : lookupE d2 name = none) :
    copyFile2 name content d =
      (setEntry d name (.dir (setEntry d2 name (.file content))), none) := by
  unfold copyFile2
  simp only [hd, hd2]

theorem copyFile2_join_file (name content : String)
    (d d2 : List (String × FSTree)) (c2 : String)
    (hd : lookupE d name = some (.dir d2))
    (hd2 : lookupE d2 name = some (.file c2)) :
    copyFile2 name content d =
      (setEntry d name (.dir (setEntry d2 name (.file content))), none) := by
  unfold copyFile2
  simp only [hd, hd2]

theorem copyFile2_join_dir (name content : String)
    (d d2 dd : List (String × FSTree)) (hd : lookupE d name = some (.dir d2))
    (hd2 : lookupE d2 name = some (.dir dd)) :
    copyFile2 name content d = (d, some .isADirectory) := by
  unfold copyFile2
  simp only [hd, hd2]

theorem copyFile2_exFree (name content : String) (d : List (String × FSTree))
    (hn : name ∉ excluded) (h : exFreeE d = true) :
    exFreeE (copyFile2 name content d).1 = true := by
  cases hd : lookupE d name with
  | none =>
    rw [copyFile2_absent name content d hd]
    exact exFreeE_set d name _ h hn (exFreeT_file content)
  | some w =>
    cases w with
    | file c =>
      rw [copyFile2_overwrite name content d c hd]
      exact exFreeE_set d name _ h hn (exFreeT_file content)
    | dir d2 =>
      have hd2 : exFreeE d2 = true := exFreeE_lookup d name (.dir d2) h hd
      cases hd2l : lookupE d2 name with
      | none =>
        rw [copyFile2_join_absent name content d d2 hd hd2l]
        apply exFreeE_set d name _ h hn
        rw [exFreeT_dir]
        exact exFreeE_set d2 name _ hd2 hn (exFreeT_file content)
      | some w2 =>
        cases w2 with
        | file c2 =>
          rw [copyFile2_join_file name content d d2 c2 hd hd2l]
          apply exFreeE_set d name _ h hn
          rw [exFreeT_dir]
          exact exFreeE_set d2 name _ hd2 hn (exFreeT_file content)
        | dir dd =>
          rw [copyFile2_join_dir name content d d2 dd hd hd2l]
          exact h

theorem copyDir_exFree_aux :
    ∀ (N : Nat) (l : List (String × FSTree)) (dt : FSTree), sizeOf l ≤ N →
      exFreeT dt = true → exFreeT (copyDir l dt).1 = true := by
  intro N
  induction N with
  | zero =>
    intro l dt hle
    exfalso
    cases l <;> simp_arith at hle
  | succ N ihN =>
    intro l dt hle hex
    cases l with
    | nil =>
      rw [copyDir_nil]
      exact hex
    | cons hd rest =>
      obtain ⟨name, item⟩ := hd
      have hlerest : sizeOf rest ≤ N := by
        have h2 := hle
        simp_arith at h2
        omega
      by_cases hmem : name ∈ excluded
      · rw [copyDir_cons_excl name item rest hmem]
        exact ihN rest dt hlerest hex
      · cases dt with
        | file cc =>
          rw [copyDir_cons_destFile name item rest hmem cc]
          exact exFreeT_file cc
        | dir d =>
          rw [exFreeT_dir] at hex
          cases item with
          | file content =>
            cases hre : (copyFile2 name content d).2 with
            | some e =>
              rw [copyDir_cons_file_err name content rest hmem d e hre,
                copyFile2_err_state name content d e hre, exFreeT_dir]
              exact hex
            | none =>
              rw [copyDir_cons_file_ok name content rest hmem d hre]
              apply ihN rest _ hlerest
              rw [exFreeT_dir]
              exact copyFile2_exFree name content d hmem hex
          | dir c =>
            have hlec : sizeOf c ≤ N := by
              have h2 := hle
              simp_arith at h2
              omega
            have hDI : exFreeT ((lookupE d name).getD (.dir [])) = true := by
              cases hw : lookupE d name with
              | none =>
                rw [Option.getD_none, exFreeT_dir]
                exact exFreeE_nil
              | some w =>
                rw [Option.getD_some]
                exact exFreeE_lookup d name w hex hw
            have hR1 : exFreeT (copyDir c ((lookupE d name).getD (.dir []))).1 = true :=
              ihN c _ hlec hDI
            have hset : exFreeE (setEntry d name
                (copyDir c ((lookupE d name).getD (.dir []))).1) = true :=
              exFreeE_set d name _ hex hmem hR1
            cases hre : (copyDir c ((lookupE d name).getD (.dir []))).2 with
            | some e =>
              rw [copyDir_cons_dir_err name c rest hmem d e hre, exFreeT_dir]
              exact hset
            | none =>
              rw [copyDir_cons_dir_ok name c rest hmem d hre]
              apply ihN rest _ hlerest
              rw [exFreeT_dir]
              exact hset

theorem copyDir_exFree (l : List (String × FSTree)) (dt : FSTree)
    (hex : exFreeT dt = true) : exFreeT (copyDir l dt).1 = true :=
  copyDir_exFree_aux (sizeOf l) l dt le_rfl hex

theorem syncEntries_lookup_excl (src : List (String × FSTree)) :
    ∀ (dest : List (String × FSTree)) (n : String), n ∈ excluded →
      lookupE (syncEntries src dest).1 n = lookupE dest n := by
  induction src with
  | nil => intro dest n _; rw [syncEntries_nil]
  | cons hd rest ih =>
    obtain ⟨name, item⟩ := hd
    intro dest n hn
    by_cases hmem : name ∈ excluded
    · rw [syncEntries_cons_excl name item rest hmem]
      exact ih dest n hn
    · have hne : n ≠ name := by
        intro hh
        subst hh
        exact hmem hn
      cases item with
      | dir c =>
        cases hl : lookupE dest name with
        | some destItem =>
          cases hre : (copyDir c destItem).2 with
          | some e =>
            rw [syncEntries_cons_dir_merge_err name c rest dest destItem e hmem hl hre,
              lookupE_set_ne dest name n _ hne]
          | none =>
            rw [syncEntries_cons_dir_merge_ok name c rest dest destItem hmem hl hre,
              ih _ n hn, lookupE_set_ne dest name n _ hne]
        | none =>
          rw [syncEntries_cons_dir_new name c rest dest hmem hl, ih _ n hn,
            lookupE_set_ne dest name n _ hne]
      | file content =>
        cases hre : (copyFile2 name content dest).2 with
        | some e =>
          rw [syncEntries_cons_file_err name content rest dest e hmem hre,
            copyFile2_lookup_ne name content dest n hne]
        | none =>
          rw [syncEntries_cons_file_ok name content rest dest hmem hre, ih _ n hn,
            copyFile2_lookup_ne name content dest n hne]

theorem syncEntries_exFree (src : List (String × FSTree)) :
    ∀ dest : List (String × FSTree), exFreeE dest = true →
      (∀ n t, (n, t) ∈ src → lookupE dest n = none → exFreeT t = true) →
      exFreeE (syncEntries src dest).1 = true := by
  induction src with
  | nil =>
    intro dest h _
    rw [syncEntries_nil]
    exact h
  | cons hd rest ih =>
    obtain ⟨name, item⟩ := hd
    intro dest hex h2
    by_cases hmem : name ∈ excluded
    · rw [syncEntries_cons_excl name item rest hmem]
      exact ih dest hex (fun n t hm hl => h2 n t (List.mem_cons_of_mem _ hm) hl)
    · cases item with
      | dir c =>
        cases hl : lookupE dest name with
        | some destItem =>
          have hexDI : exFreeT destItem = true :=
            exFreeE_lookup dest name destItem hex hl
          have hexR1 : exFreeT (copyDir c destItem).1 = true :=
            copyDir_exFree c destItem hexDI
          have hset : exFreeE (setEntry dest name (copyDir c destItem).1) = true :=
            exFreeE_set dest name _ hex hmem hexR1
          cases hre : (copyDir c destItem).2 with
          | some e =>
            rw [syncEntries_cons_dir_merge_err name c rest dest destItem e hmem hl hre]
            exact hset
          | none =>
            rw [syncEntries_cons_dir_merge_ok name c rest dest destItem hmem hl hre]
            apply ih _ hset
            intro n t hm hln
            apply h2 n t (List.mem_cons_of_mem _ hm)
            by_cases hn : n = name
            · subst hn
              rw [lookupE_set_self] at hln
              cases hln
            · rw [lookupE_set_ne dest name n _ hn] at hln
              exact hln
        | none =>
          rw [syncEntries_cons_dir_new name c rest dest hmem hl]
          have hexc : exFreeT (.dir c) = true :=
            h2 name (.dir c) (List.mem_cons_self _ _) hl
          have hset : exFreeE (setEntry dest name (.dir c)) = true :=
            exFreeE_set dest name _ hex hmem hexc
          apply ih _ hset
          intro n t hm hln
          apply h2 n t (List.mem_cons_of_mem _ hm)
          by_cases hn : n = name
          · subst hn
            rw [lookupE_set_self] at hln
            cases hln
          · rw [lookupE_set_ne dest name n _ hn] at hln
            exact hln
      | file content =>
        cases hre : (copyFile2 name content dest).2 with
        | some e =>
          rw [syncEntries_cons_file_err name content rest dest e hmem hre,
            copyFile2_err_state name content dest e hre]
          exact hex
        | none =>
          rw [syncEntries_cons_file_ok name content rest dest hmem hre]
          have hexr : exFreeE (copyFile2 name content dest).1 = true :=
            copyFile2_exFree name content dest hmem hex
          apply ih _ hexr
          intro n t hm hln
          apply h2 n t (List.mem_cons_of_mem _ hm)
          obtain ⟨X, hX⟩ := copyFile2_ok_set name content dest hre
          by_cases hn : n = name
          · subst hn
            rw [hX, lookupE_set_self] at hln
            cases hln
          · rw [hX, lookupE_set_ne dest name n _ hn] at hln
            exact hln

theorem copyDir_destFile_fails (c : List (String × FSTree)) (x : String)
    (h : ∃ n t, (n, t) ∈ c ∧ n ∉ excluded) :
    copyDir c (.file x) = (.file x, some .notADirectory) := by
  induction c with
  | nil =>
    obtain ⟨n, t, hm, _⟩ := h
    simp at hm
  | cons hd rest ih =>
    obtain ⟨name, item⟩ := hd
    by_cases hmem : name ∈ excluded
    · rw [copyDir_cons_excl name item rest hmem]
      apply ih
      obtain ⟨n, t, hm, hn⟩ := h
      rcases List.mem_cons.mp hm with h1 | h1
      · obtain ⟨e1, _⟩ := Prod.mk.injEq .. ▸ h1
        exact absurd (e1 ▸ hmem) hn
      · exact ⟨n, t, h1, hn⟩
    · exact copyDir_cons_destFile name item rest hmem x

/-! ## Claims -/

/-- C4: when the `git clone` subprocess exits with a non-zero status,
`download_or_update_flows` returns without invoking the merge step and the
`FLOWS_PATH` state is byte-for-byte unchanged (the ephemeral directory is
still reclaimed). -/
theorem flow_fetch_failure_isolation (cloneCode : Int)
    (cloned : List (String × FSTree)) (s : SyncState) (tid : Nat)
    (h : cloneCode ≠ 0) :
    download_or_update_flows cloneCode cloned s tid = (s, false) := by
  unfold download_or_update_flows syncBody
  simp [h]

theorem flow_fetch_failure_isolation_witness :
    download_or_update_flows 1 [("a", FSTree.file "x")]
      ⟨some [("k", FSTree.file "v")], [7]⟩ 3 =
      (⟨some [("k", FSTree.file "v")], [7]⟩, false) :=
  flow_fetch_failure_isolation 1 _ _ 3 (by decide)

/-- C8: `download_or_update_flows` reclaims the temporary directory acquired
by its `with tempfile.TemporaryDirectory()` block on every exit path, so after
any invocation the set of live ephemeral directories equals what it was
before the call. -/
theorem flow_fetch_cleanup (cloneCode : Int) (cloned : List (String × FSTree))
    (s : SyncState) (tid : Nat) :
    (download_or_update_flows cloneCode cloned s tid).1.temps = s.temps := by
  unfold download_or_update_flows
  simp

/-- C6 (amended only by the spec's own well-formedness assumption that a
directory's children are uniquely named): running the merge loop twice with
the same source yields exactly the state of running it once, including the
error outcome. -/
theorem flow_sync_idempotent (src dest : List (String × FSTree))
    (hnd : nodupE src = true) :
    syncEntries src (syncEntries src dest).1 = syncEntries src dest :=
  syncEntries_idem_aux src hnd dest

theorem flow_sync_idempotent_witness :
    syncEntries [("a", FSTree.file "1"), ("d", FSTree.dir [("b", FSTree.file "2")])]
        (syncEntries [("a", FSTree.file "1"),
          ("d", FSTree.dir [("b", FSTree.file "2")])] [("d", FSTree.file "x")]).1 =
      syncEntries [("a", FSTree.file "1"), ("d", FSTree.dir [("b", FSTree.file "2")])]
        [("d", FSTree.file "x")] :=
  flow_sync_idempotent _ _ (by simp [nodupE, lookupE])

/-- C5 (amended): a directory-vs-file collision aborts the merge only when a
write is attempted through the destination file: a source directory holding
at least one non-denylisted entry that collides with a destination file makes
the pass raise NotADirectoryError; the counterexample shows an empty source
directory colliding with a destination file completes silently. -/
theorem flow_sync_collision_error (name : String)
    (c rest dest : List (String × FSTree)) (x : String)
    (hmem : name ∉ excluded) (hl : lookupE dest name = some (.file x))
    (h : ∃ n t, (n, t) ∈ c ∧ n ∉ excluded) :
    (syncEntries ((name, .dir c) :: rest) dest).2 = some .notADirectory := by
  have hcd := copyDir_destFile_fails c x h
  have hre : (copyDir c (.file x)).2 = some .notADirectory := by rw [hcd]
  rw [syncEntries_cons_dir_merge_err name c rest dest (.file x) _ hmem hl hre]

theorem flow_sync_collision_error_witness :
    (syncEntries [("a", FSTree.dir [("b", FSTree.file "y")])]
      [("a", FSTree.file "x")]).2 = some .notADirectory :=
  flow_sync_collision_error "a" [("b", FSTree.file "y")] [] [("a", FSTree.file "x")]
    "x" (by simp [excluded]) (by simp [lookupE])
    ⟨"b", FSTree.file "y", by simp, by simp [excluded]⟩

/-- C5 counterexample: the claim as stated is false — here the merge pass
contains a directory-vs-file collision (source directory `a` versus
destination file `a`), yet `synchronize` completes silently (no exception is
raised and the state is returned unchanged). -/
theorem flow_sync_collision_error_cx :
    collidesE [("a", FSTree.dir [])] [("a", FSTree.file "x")] = true ∧
    syncEntries [("a", FSTree.dir [])] [("a", FSTree.file "x")] =
      ([("a", FSTree.file "x")], none) := by
  constructor
  · simp [collidesE, lookupE]
  · simp [syncEntries, copyDir, lookupE, setEntry, excluded]

/-- C1 (amended): entries present only in the destination are never deleted
and keep their exact content, provided no name is a file in the source and a
directory in the destination at a position the merge traverses (and the
source tree is well-formed); the guarantee holds even for passes that abort
with an error.  The counterexample shows the excluded collision shape is
genuinely destructive: `shutil.copy2` then writes INTO the destination
directory and overwrites its destination-only child of the same name. -/
theorem flow_sync_nondestructive (src dest : List (String × FSTree))
    (p : List String) (v : FSTree) (hnd : nodupE src = true)
    (hfd : noFileDirColl src dest = true)
    (hdonly : getPath (.dir dest) p = some v)
    (hsrc : getPath (.dir src) p = none) :
    getPath (.dir (syncEntries src dest).1) p = some v :=
  syncEntries_nondestr src hnd dest hfd p v hdonly hsrc

theorem flow_sync_nondestructive_witness :
    getPath (.dir (syncEntries [("a", FSTree.file "x")]
        [("b", FSTree.file "keep")]).1) ["b"] = some (FSTree.file "keep") :=
  flow_sync_nondestructive [("a", FSTree.file "x")] [("b", FSTree.file "keep")]
    ["b"] (FSTree.file "keep")
    (by simp [nodupE, lookupE])
    (by simp [noFileDirColl, lookupE])
    (by simp [getPath, lookupE])
    (by simp [getPath, lookupE])

/-- C1 counterexample: the claim as stated is false.  Destination-only entry
`a/a` (content `keep`) is absent from the source, whose top-level FILE `a`
collides with the destination DIRECTORY `a`; `shutil.copy2` copies the source
file into that directory, so after a silently successful pass the
destination-only entry has been overwritten with `new`. -/
theorem flow_sync_nondestructive_cx :
    getPath (.dir [("a", FSTree.file "new")]) ["a", "a"] = none ∧
    getPath (.dir [("a", FSTree.dir [("a", FSTree.file "keep")])]) ["a", "a"] =
      some (FSTree.file "keep") ∧
    syncEntries [("a", FSTree.file "new")]
        [("a", FSTree.dir [("a", FSTree.file "keep")])] =
      ([("a", FSTree.dir [("a", FSTree.file "new")])], none) ∧
    FSTree.file "new" ≠ FSTree.file "keep" := by
  refine ⟨?_, ?_, ?_, ?_⟩
  · simp [getPath, lookupE]
  · simp [getPath, lookupE]
  · simp [syncEntries, copyFile2, lookupE, setEntry, excluded]
  · simp

/-- C2 (amended): the merge never creates or modifies a denylisted entry at
the destination's top level, and it preserves freedom from denylisted names
at every depth provided every source top-level directory that is absent from
the destination is itself free of them; the counterexample shows that
`shutil.copytree` of such an absent directory copies nested denylisted
entries verbatim. -/
theorem flow_sync_exclusion (src dest : List (String × FSTree)) :
    (∀ n, n ∈ excluded → lookupE (syncEntries src dest).1 n = lookupE dest n) ∧
    (exFreeE dest = true →
      (∀ n t, (n, t) ∈ src → lookupE dest n = none → exFreeT t = true) →
      exFreeE (syncEntries src dest).1 = true) :=
  ⟨fun n hn => syncEntries_lookup_excl src dest n hn,
   fun h1 h2 => syncEntries_exFree src dest h1 h2⟩

theorem flow_sync_exclusion_witness :
    lookupE (syncEntries [(".git", FSTree.dir [("h", FSTree.file "c")]),
        ("ok", FSTree.file "1")] [("k", FSTree.file "v")]).1 ".git" =
      lookupE [("k", FSTree.file "v")] ".git" ∧
    exFreeE (syncEntries [(".git", FSTree.dir [("h", FSTree.file "c")]),
        ("ok", FSTree.file "1")] [("k", FSTree.file "v")]).1 = true :=
  ⟨(flow_sync_exclusion _ _).1 ".git" (by simp [excluded]),
   (flow_sync_exclusion _ _).2 (by simp [exFreeE, excluded])
     (by
       intro n t hm hl
       rcases List.mem_cons.mp hm with h1 | h1
       · obtain ⟨e1, e2⟩ := Prod.mk.injEq .. ▸ h1
         subst e2
         simp [exFreeT, exFreeE, excluded]
       · simp at h1
         obtain ⟨e1, e2⟩ := h1
         subst e2
         simp [exFreeT])⟩

/-- C2 counterexample: the claim as stated is false.  The source directory
`sub` has no destination counterpart, so it is copied verbatim by
`shutil.copytree` with no denylist filtering, and a `.git` entry appears
inside the destination after the pass. -/
theorem flow_sync_exclusion_cx :
    syncEntries [("sub", FSTree.dir [(".git", FSTree.dir [])])] [] =
      ([("sub", FSTree.dir [(".git", FSTree.dir [])])], none) ∧
    getPath (.dir (syncEntries [("sub", FSTree.dir [(".git", FSTree.dir [])])] []).1)
      ["sub", ".git"] = some (FSTree.dir []) := by
  constructor
  · simp [syncEntries, lookupE, setEntry, excluded]
  · simp [syncEntries, lookupE, setEntry, excluded, getPath]

/-- C3 (amended): for a file present at the same relative path in both trees,
the destination content equals the source content after the pass, provided
the pass completes without raising, no component of the path is a denylisted
name, and the source tree is well-formed.  The counterexample shows a path
through a denylisted component is skipped even though the file is present in
both trees. -/
theorem flow_sync_override (src dest : List (String × FSTree)) (p : List String)
    (ct : String) (hnd : nodupE src = true)
    (hok : (syncEntries src dest).2 = none)
    (hp : ∀ n, n ∈ p → n ∉ excluded)
    (hsrc : getPath (.dir src) p = some (.file ct))
    (hdst : ∃ c0, getPath (.dir dest) p = some (.file c0)) :
    getPath (.dir (syncEntries src dest).1) p = some (.file ct) :=
  syncEntries_override src hnd dest hok p ct hp hsrc hdst

theorem flow_sync_override_witness :
    getPath (.dir (syncEntries [("x", FSTree.file "new")]
        [("x", FSTree.file "old")]).1) ["x"] = some (FSTree.file "new") :=
  flow_sync_override [("x", FSTree.file "new")] [("x", FSTree.file "old")]
    ["x"] "new"
    (by simp [nodupE, lookupE])
    (by simp [syncEntries, copyFile2, lookupE, setEntry, excluded])
    (by
      intro n hn
      simp at hn
      subst hn
      simp [excluded])
    (by simp [getPath, lookupE])
    ⟨"old", by simp [getPath, lookupE]⟩

/-- C3 counterexample: the claim as stated is false.  The file `.git/x` is
present in both trees with different contents, the pass completes without
error, yet the destination content is NOT overridden because the denylisted
component `.git` is skipped by the merge. -/
theorem flow_sync_override_cx :
    getPath (.dir [(".git", FSTree.dir [("x", FSTree.file "new")])]) [".git", "x"] =
      some (FSTree.file "new") ∧
    getPath (.dir [(".git", FSTree.dir [("x", FSTree.file "old")])]) [".git", "x"] =
      some (FSTree.file "old") ∧
    syncEntries [(".git", FSTree.dir [("x", FSTree.file "new")])]
        [(".git", FSTree.dir [("x", FSTree.file "old")])] =
      ([(".git", FSTree.dir [("x", FSTree.file "old")])], none) ∧
    FSTree.file "old" ≠ FSTree.file "new" := by
  refine ⟨?_, ?_, ?_, ?_⟩
  · simp [getPath, lookupE]
  · simp [getPath, lookupE]
  · simp [syncEntries, excluded]
  · simp

/-- C7: whenever `install_package_handler` returns an error result — the
`git clone` failed (possibly leaving a partial directory) or the
`pip install -r` step failed — the partially created package directory has
been deleted before returning, so `CUSTOM_NODES_DIR` is back in its prior
state. -/
theorem flow_install_rollback (packageUrl : Option String) (cloneOk : Bool)
    (clonedTree : List (String × FSTree))
    (cloneLeftover : Option (List (String × FSTree))) (pipOk : Bool)
    (nodes : List (String × FSTree))
    (h : (install_package_handler packageUrl cloneOk clonedTree cloneLeftover
            pipOk nodes).2 = .errorClone ∨
         (install_package_handler packageUrl cloneOk clonedTree cloneLeftover
            pipOk nodes).2 = .errorRequirements) :
    (install_package_handler packageUrl cloneOk clonedTree cloneLeftover
      pipOk nodes).1 = nodes := by
  unfold install_package_handler at h ⊢
  cases packageUrl with
  | none => rcases h with h | h <;> simp at h
  | some url =>
    by_cases hex : (lookupE nodes (packageNameOf url)).isSome
    · rcases h with h | h <;> simp [hex] at h
    · have hnone : lookupE nodes (packageNameOf url) = none :=
        Option.not_isSome_iff_eq_none.mp hex
      by_cases hco : cloneOk
      · by_cases hreq : (lookupE clonedTree "requirements.txt").isSome
        · by_cases hpip : pipOk
          · rcases h with h | h <;> simp [hex, hco, hreq, hpip] at h
          · simp only [hex, hco, hreq, hpip]
            simp
            rw [setEntry_absent nodes _ _ hnone, removeEntry_append nodes _ _ hnone]
        · rcases h with h | h <;> simp [hex, hco, hreq] at h
      · simp only [hex, hco]
        cases cloneLeftover with
        | some t =>
          have hlk : lookupE (setEntry nodes (packageNameOf url) (.dir t))
              (packageNameOf url) = some (.dir t) := lookupE_set_self nodes _ _
          simp [hlk]
          rw [setEntry_absent nodes _ _ hnone, removeEntry_append nodes _ _ hnone]
        | none => simp [hnone]

theorem flow_install_rollback_witness :
    (install_package_handler (some "https://github.com/u/pkg") false
      [("f", FSTree.file "x")] (some [("f", FSTree.file "x")]) true
      [("q", FSTree.file "z")]).1 = [("q", FSTree.file "z")] :=
  flow_install_rollback (some "https://github.com/u/pkg") false
    [("f", FSTree.file "x")] (some [("f", FSTree.file "x")]) true
    [("q", FSTree.file "z")]
    (Or.inl (by simp [install_package_handler, packageNameOf, lastSegment,
      lookupE, setEntry]))

/-- C9: `save_config_handler` hardcodes the flow id `afl_aaafllinker`, so its
`Missing id` 400 branch is unreachable, no flow entry other than
`afl_aaafllinker` is ever written, and when that flow directory exists the
request body is dumped to its `flowConfig.json`, whatever `id` the caller
supplied in the body. -/
theorem flow_save_config_fixed_path (data : List (String × String))
    (flows : List (String × FSTree)) :
    (save_config_handler data flows).2 ≠ 400 ∧
    (∀ f, f ≠ "afl_aaafllinker" →
      lookupE (save_config_handler data flows).1 f = lookupE flows f) ∧
    (∀ d, lookupE flows "afl_aaafllinker" = some (.dir d) →
      getPath (.dir (save_config_handler data flows).1)
        ["afl_aaafllinker", "flowConfig.json"] =
        some (.file (encodeJson data))) := by
  have hne : ¬("afl_aaafllinker" = "") := by decide
  refine ⟨?_, ?_, ?_⟩
  · cases hl : lookupE flows "afl_aaafllinker" with
    | none => simp [save_config_handler, hne, hl]
    | some w => cases w <;> simp [save_config_handler, hne, hl]
  · intro f hf
    cases hl : lookupE flows "afl_aaafllinker" with
    | none => simp [save_config_handler, hne, hl]
    | some w =>
      cases w with
      | file c => simp [save_config_handler, hne, hl]
      | dir d =>
        simp [save_config_handler, hne, hl, lookupE_set_ne flows _ f _ hf]
  · intro d hl
    simp [save_config_handler, hne, hl]
    rw [getPath_dir_cons_some _ _ _ _ (lookupE_set_self flows _ _),
      getPath_dir_cons_some _ _ _ _ (lookupE_set_self d _ _), getPath_nil]

theorem flow_save_config_fixed_path_witness :
    getPath (.dir (save_config_handler [("id", "other_flow")]
        [("afl_aaafllinker", FSTree.dir [])]).1)
      ["afl_aaafllinker", "flowConfig.json"] =
      some (FSTree.file (encodeJson [("id", "other_flow")])) :=
  (flow_save_config_fixed_path [("id", "other_flow")]
    [("afl_aaafllinker", FSTree.dir [])]).2.2 [] (by simp [lookupE])

/-- C10: a theme request whose filename is not accepted by `allowed_file`
(no dot, or the lower-cased segment after the last dot is not in the css
allowlist) is answered 404 with no file content; content is served only for
an allowed filename naming a regular file of the themes directory, and the
listing only ever names files accepted by `allowed_file`. -/
theorem flow_theme_css_allowlist (filename : String)
    (themesDir : List (String × FSTree))
    (dOpt : Option (List (String × FSTree))) :
    (allowed_file filename = false →
      get_theme_css_handler filename themesDir = .notFound) ∧
    (∀ c, get_theme_css_handler filename themesDir = .fileContent c →
      allowed_file filename = true ∧
        lookupE themesDir filename = some (.file c)) ∧
    (∀ f, f ∈ list_themes_handler dOpt → allowed_file f = true) := by
  refine ⟨?_, ?_, ?_⟩
  · intro h
    simp [get_theme_css_handler, h]
  · intro c hc
    unfold get_theme_css_handler at hc
    by_cases ha : allowed_file filename
    · refine ⟨ha, ?_⟩
      simp only [ha, Bool.not_true, Bool.false_eq_true, if_false] at hc
      cases hl : lookupE themesDir filename with
      | none => simp [hl] at hc
      | some w =>
        cases w with
        | dir d => simp [hl] at hc
        | file c' =>
          simp [hl] at hc
          rw [hc]
    · simp [ha] at hc
  · intro f hm
    cases dOpt with
    | none => simp [list_themes_handler] at hm
    | some d =>
      simp only [list_themes_handler, List.mem_map, List.mem_filter] at hm
      obtain ⟨nt, hmem, hf⟩ := hm
      obtain ⟨h1, h2⟩ := Bool.and_eq_true .. ▸ hmem.2
      rw [← hf]
      exact h2

theorem flow_theme_css_allowlist_witness :
    get_theme_css_handler "evil.js" [("evil.js", FSTree.file "alert")] =
      ThemeResp.notFound ∧
    (allowed_file "dark.css" = true ∧
      lookupE [("dark.css", FSTree.file "body")] "dark.css" =
        some (FSTree.file "body")) :=
  ⟨(flow_theme_css_allowlist "evil.js" [("evil.js", FSTree.file "alert")] none).1
      (by decide),
   (flow_theme_css_allowlist "dark.css" [("dark.css", FSTree.file "body")] none).2.1
      "body" (by decide)⟩
